import Mathlib

/-!
# Appgame: resource subsystem, UIManager screen size, FishingSystem and Config

A shallow embedding of `src/src/core/Resource.cpp` (declarations in
`src/include/core/Resource.h`), of the screen-size methods of
`src/src/fishing/ui/UIManager.cpp`, of `src/src/fishing/systems/FishingSystem.cpp`
and of `src/src/fishing/core/Config.cpp`.

Modelling conventions.

* `std::unordered_map<std::string, V>` is an association list `List (String × V)`
  with the three operations the source uses: `find`, `operator[]` assignment and
  `erase(iterator)`.  The list order stands for the (unspecified) iteration order.
* `size_t` is 64 bits wide.  In `ResourceCache` every sum and difference of
  `size_t` values wraps around modulo `2 ^ 64` as in the source (`wrapAdd`,
  `wrapSub`).  The memory total of `ResourceManager` is the natural number that
  the source's additions and subtractions produce as long as it stays below
  `2 ^ 64`.
* `std::chrono::steady_clock::now()` is a natural number handed to the operation
  that reads the clock.
* The hysteresis test `m_currentCacheSize <= m_cacheSizeLimit * 0.8` is the
  comparison of two `double` values that C++ performs: `atTarget` converts both
  `size_t` operands to `double`, multiplies by the double nearest to 0.8 and
  rounds the product.  For sizes and limits below `2 ^ 50` this is exactly
  `5 * current ≤ 4 * limit` (`atTarget_iff_exact`); beyond that the two differ.
* A `Resource` is an abstract class.  An instance is described by its identity
  (`id`, the heap object), the base-class fields, the value of `getSize()` and the
  behaviour of its virtual `load()` (the returned flag and the status it leaves).
* Calls that leave the subsystem (loader calls, `load()`, `unload()`, user
  callbacks, starting the worker thread) are recorded in a trace.
* `float32` quantities of `FishingSystem` are IEEE 754 binary32 values (`F32`):
  NaN, the infinities, and finite numbers with every operation rounded to nearest,
  ties to even.  The `float32` values of `Config` (stored and returned, never
  computed with) and the scale factor of `UIManager` (used only after a nested
  call that never returns) are rational numbers.
* Results that come from outside the embedded class (the initialisation of the
  fish and physics managers, the random spawn of a fish, the float conversions of
  the standard library) are arguments of the operation that uses them.
* A method that calls itself or a sibling without a bound takes the allowed depth
  of nested calls as a number and gives `none` when the depth is used up.
-/

namespace Appgame

/-! ## Data model -/

/-- Resource type tags (`enum class ResourceType`). -/
inductive ResourceType where
  | TEXTURE | SOUND | MUSIC | SHADER | MODEL | FONT | DATA | UNKNOWN
  deriving DecidableEq, Repr

/-- Resource status (`enum class ResourceStatus`). -/
inductive ResourceStatus where
  | UNLOADED | LOADING | LOADED | FAILED
  deriving DecidableEq, Repr

/-- An instance of (a subclass of) `Resource`.  `id` is the identity of the heap
object; `size` is what `getSize()` reports; `loadResult` is what the virtual
`load()` returns and `loadStatus` the status it leaves behind. -/
structure Resource where
  id : Nat
  m_name : String
  m_path : String
  m_type : ResourceType
  m_status : ResourceStatus
  size : Nat
  loadResult : Bool
  loadStatus : ResourceStatus
  deriving DecidableEq, Repr

namespace Resource

/-- The accessor `Resource::getPath`. -/
def getPath (r : Resource) : String := r.m_path

/-- The accessor `Resource::getStatus`. -/
def getStatus (r : Resource) : ResourceStatus := r.m_status

/-- The virtual `Resource::getSize`. -/
def getSize (r : Resource) : Nat := r.size

/-- The virtual `Resource::load`: the returned flag and the object afterwards. -/
def load (r : Resource) : Bool × Resource :=
  (r.loadResult, { r with m_status := r.loadStatus })

end Resource

/-! ## Association lists standing for `std::unordered_map` -/

/-- The lookup `m.find(k)`: the mapped value, or `none` for `m.end()`. -/
def mapFind {α β : Type} [DecidableEq α] : List (α × β) → α → Option β
  | [], _ => none
  | (k', v) :: rest, k => if k' = k then some v else mapFind rest k

/-- The removal `m.erase(it)` for the iterator found under key `k`. -/
def mapErase {α β : Type} [DecidableEq α] : List (α × β) → α → List (α × β)
  | [], _ => []
  | (k', v) :: rest, k => if k' = k then rest else (k', v) :: mapErase rest k

/-- The assignment `m[k] = v`: overwrite the mapped value, or add a new entry. -/
def mapAssign {α β : Type} [DecidableEq α] : List (α × β) → α → β → List (α × β)
  | [], k, v => [(k, v)]
  | (k', v') :: rest, k, v =>
    if k' = k then (k', v) :: rest else (k', v') :: mapAssign rest k v

/-- The keys of a map, in iteration order. -/
def mapKeys {α β : Type} (m : List (α × β)) : List α := m.map Prod.fst

/-! ## ResourceCache -/

/-- The private `ResourceCache::CacheItem`. -/
structure CacheItem where
  key : String
  resource : Resource
  size : Nat
  lastAccessed : Nat
  deriving DecidableEq, Repr

/-- The state of a `ResourceCache`. -/
structure ResourceCache where
  m_cache : List (String × CacheItem)
  m_cacheSizeLimit : Nat
  m_currentCacheSize : Nat
  deriving DecidableEq, Repr

/-- One removal performed by an eviction pass: the erased item and the value of
`m_currentCacheSize` just before it was erased. -/
structure Removal where
  item : CacheItem
  sizeBefore : Nat
  deriving DecidableEq, Repr

/-- The sum `a + b` of two `size_t` values: unsigned 64-bit, wrapping around. -/
def wrapAdd (a b : Nat) : Nat := (a + b) % 2 ^ 64

/-- The difference `a - b` of two `size_t` values: unsigned 64-bit, wrapping
around. -/
def wrapSub (a b : Nat) : Nat := (a + (2 ^ 64 - b % 2 ^ 64)) % 2 ^ 64

/-- The number of low bits of `n` that do not fit into the 53-bit significand of a
`double`: the least `k` with `n / 2 ^ k < 2 ^ 53` (`fuel` bounds the search). -/
def excessBits (n : Nat) : Nat → Nat
  | 0 => 0
  | fuel + 1 => if n < 2 ^ 53 then 0 else excessBits (n / 2) fuel + 1

/-- Rounding of a natural number to the nearest number with a 53-bit significand,
ties to the even significand: the conversion of an integer to `double`. -/
def round53 (n : Nat) : Nat :=
  let k := excessBits n n
  let q := n / 2 ^ k
  let r := n % 2 ^ k
  if 2 * r < 2 ^ k ∨ (2 * r = 2 ^ k ∧ q % 2 = 0) then q * 2 ^ k else (q + 1) * 2 ^ k

/-- The hysteresis test `m_currentCacheSize <= m_cacheSizeLimit * 0.8` of
`evictResources`, as C++ evaluates it: both `size_t` operands are converted to
`double` (`round53`), the literal `0.8` is the double `3602879701896397 / 2 ^ 52`,
the product is rounded to a double (round to nearest, ties to even, no excess
precision), and the two doubles are compared.  Both sides are scaled by `2 ^ 52`
here. -/
def atTarget (current limit : Nat) : Prop :=
  round53 current * 2 ^ 52 ≤ round53 (round53 limit * 3602879701896397)

instance (current limit : Nat) : Decidable (atTarget current limit) := by
  unfold atTarget; infer_instance

/-- The comparator of the `std::sort` call: ascending last-accessed time. -/
def olderFirst (a b : String × Nat) : Prop := a.2 ≤ b.2

instance : DecidableRel olderFirst := fun a b => by
  unfold olderFirst; infer_instance

instance : IsTotal (String × Nat) olderFirst := ⟨fun a b => Nat.le_total a.2 b.2⟩

instance : IsTrans (String × Nat) olderFirst := ⟨fun _ _ _ hab hbc => Nat.le_trans hab hbc⟩

namespace ResourceCache

/-- The constructor: limit 100 MB, nothing cached. -/
def new : ResourceCache :=
  { m_cache := [], m_cacheSizeLimit := 1024 * 1024 * 100, m_currentCacheSize := 0 }

/-- The vector `items` of `evictResources` before sorting. -/
def evictItems (c : ResourceCache) : List (String × Nat) :=
  c.m_cache.map fun p => (p.1, p.2.lastAccessed)

/-- The removal loop of `evictResources` over the sorted `items`; the second
component lists the removals in the order they happen. -/
def evictLoop : List (String × Nat) → ResourceCache → ResourceCache × List Removal
  | [], c => (c, [])
  | item :: rest, c =>
    if atTarget c.m_currentCacheSize c.m_cacheSizeLimit then (c, [])
    else
      match mapFind c.m_cache item.1 with
      | some it =>
        let r := evictLoop rest
          { c with m_currentCacheSize := wrapSub c.m_currentCacheSize it.size,
                   m_cache := mapErase c.m_cache item.1 }
        (r.1, { item := it, sizeBefore := c.m_currentCacheSize } :: r.2)
      | none => evictLoop rest c

/-- The private `ResourceCache::evictResources`, with the list of removals.
`std::sort` leaves the order of entries with equal timestamps open; the embedding
sorts with a stable insertion sort over the iteration order. -/
def evictResources (c : ResourceCache) : ResourceCache × List Removal :=
  evictLoop (List.insertionSort olderFirst (evictItems c)) c

/-- The method `ResourceCache::setCacheSizeLimit`. -/
def setCacheSizeLimit (c : ResourceCache) (limit : Nat) : ResourceCache :=
  (evictResources { c with m_cacheSizeLimit := limit }).1

/-- The method `ResourceCache::cacheResource`; `now` is the clock reading. -/
def cacheResource (c : ResourceCache) (key : String) (resource : Resource) (now : Nat) :
    ResourceCache :=
  match mapFind c.m_cache key with
  | some it =>
    { c with
      m_cache := mapAssign c.m_cache key
        { it with resource := resource, size := resource.getSize, lastAccessed := now }
      m_currentCacheSize := wrapAdd (wrapSub c.m_currentCacheSize it.size) resource.getSize }
  | none =>
    let resourceSize := resource.getSize
    let c1 := if wrapAdd c.m_currentCacheSize resourceSize > c.m_cacheSizeLimit
      then (evictResources c).1 else c
    if wrapAdd c1.m_currentCacheSize resourceSize ≤ c1.m_cacheSizeLimit then
      { c1 with
        m_cache := mapAssign c1.m_cache key
          { key := key, resource := resource, size := resourceSize, lastAccessed := now }
        m_currentCacheSize := wrapAdd c1.m_currentCacheSize resourceSize }
    else c1

/-- The method `ResourceCache::getCachedResource`; `now` is the clock reading. -/
def getCachedResource (c : ResourceCache) (key : String) (now : Nat) :
    Option Resource × ResourceCache :=
  match mapFind c.m_cache key with
  | some it =>
    (some it.resource,
      { c with m_cache := mapAssign c.m_cache key { it with lastAccessed := now } })
  | none => (none, c)

/-- The method `ResourceCache::removeCachedResource`. -/
def removeCachedResource (c : ResourceCache) (key : String) : ResourceCache :=
  match mapFind c.m_cache key with
  | some it =>
    { c with m_currentCacheSize := wrapSub c.m_currentCacheSize it.size,
             m_cache := mapErase c.m_cache key }
  | none => c

/-- The method `ResourceCache::clearCache`. -/
def clearCache (c : ResourceCache) : ResourceCache :=
  { c with m_cache := [], m_currentCacheSize := 0 }

/-- The accessor `ResourceCache::getCacheSize`. -/
def getCacheSize (c : ResourceCache) : Nat := c.m_currentCacheSize

/-- The accessor `ResourceCache::getCacheLimit`. -/
def getCacheLimit (c : ResourceCache) : Nat := c.m_cacheSizeLimit

end ResourceCache

/-- A call of a public `ResourceCache` method. -/
inductive CacheOp where
  | setCacheSizeLimit (limit : Nat)
  | cacheResource (key : String) (resource : Resource)
  | getCachedResource (key : String)
  | removeCachedResource (key : String)
  | clearCache
  deriving DecidableEq, Repr

namespace ResourceCache

/-- The cache after one call; `now` is the clock reading during the call. -/
def step (c : ResourceCache) (now : Nat) : CacheOp → ResourceCache
  | .setCacheSizeLimit limit => c.setCacheSizeLimit limit
  | .cacheResource key resource => c.cacheResource key resource now
  | .getCachedResource key => (c.getCachedResource key now).2
  | .removeCachedResource key => c.removeCachedResource key
  | .clearCache => c.clearCache

/-- The cache after a sequence of calls, each with its clock reading. -/
def run : List (Nat × CacheOp) → ResourceCache → ResourceCache
  | [], c => c
  | (now, op) :: rest, c => run rest (c.step now op)

end ResourceCache

/-! ## Concrete inputs -/

/-- A loaded texture resource with the given identity and size. -/
def sampleResource (id size : Nat) : Resource :=
  { id := id, m_name := "res", m_path := "res", m_type := ResourceType.TEXTURE,
    m_status := ResourceStatus.LOADED, size := size, loadResult := true,
    loadStatus := ResourceStatus.LOADED }

/-- An empty cache with the given limit. -/
def emptyWithLimit (limit : Nat) : ResourceCache :=
  { m_cache := [], m_cacheSizeLimit := limit, m_currentCacheSize := 0 }

/-- Scenario A: from an empty cache with limit 1000, `cacheResource` for the keys
"a", "b", "c" in that order, with no other call in between. -/
def scenarioA (ra rb rc : Resource) (ta tb tc : Nat) : ResourceCache :=
  ResourceCache.run
    [(ta, .cacheResource "a" ra), (tb, .cacheResource "b" rb), (tc, .cacheResource "c" rc)]
    (emptyWithLimit 1000)

/-- A cache over its limit: three entries of 600, 300 and 300 bytes, limit 1000. -/
def crowdedCache : ResourceCache :=
  { m_cache :=
      [("a", { key := "a", resource := sampleResource 1 600, size := 600, lastAccessed := 5 }),
       ("b", { key := "b", resource := sampleResource 2 300, size := 300, lastAccessed := 2 }),
       ("c", { key := "c", resource := sampleResource 3 300, size := 300, lastAccessed := 9 })],
    m_cacheSizeLimit := 1000,
    m_currentCacheSize := 1200 }

/-- The calls that refresh key "a" with a larger resource, after the limit was
set to 1000. -/
def refreshOps : List (Nat × CacheOp) :=
  [(0, .setCacheSizeLimit 1000), (1, .cacheResource "a" (sampleResource 1 400)),
   (2, .cacheResource "a" (sampleResource 2 5000))]

/-! ## ResourceManager -/

/-- A `ResourceLoader`: its virtual `load(path, type)`, where `none` is a null
`unique_ptr`.  The identity of the produced object is assigned by the caller
model (a fresh heap object on every call). -/
structure ResourceLoader where
  load : String → ResourceType → Option Resource

/-- Calls that leave the manager, in the order they happen.  `callback cb arg` is
the user callback `cb` invoked with `arg` (`none` is a null pointer). -/
inductive Event where
  | loaderLoad (path : String) (type : ResourceType)
  | resourceLoad (id : Nat)
  | resourceUnload (id : Nat)
  | callback (cb : Nat) (arg : Option Resource)
  | threadStart
  | threadJoin
  deriving DecidableEq, Repr

/-- A `ResourceLoadRequest`.  The stored callback is always the lambda built by
`loadResourceAsync`; `callback` names the user callback it captures. -/
structure ResourceLoadRequest where
  path : String
  type : ResourceType
  callback : Nat
  deriving DecidableEq, Repr

/-- The state of a `ResourceManager`, with the allocation counter `nextId` that
gives every object produced by a loader a fresh identity, and the trace. -/
structure ResourceManager where
  m_loaders : List (ResourceType × Option ResourceLoader)
  m_resources : List (String × Resource)
  m_loadRequests : List ResourceLoadRequest
  m_running : Bool
  m_totalMemoryUsage : Nat
  nextId : Nat
  trace : List Event

namespace ResourceManager

/-- The constructor: not running, nothing registered, nothing loaded. -/
def new : ResourceManager :=
  { m_loaders := [], m_resources := [], m_loadRequests := [], m_running := false,
    m_totalMemoryUsage := 0, nextId := 0, trace := [] }

/-- The lookup `m_loaders.find(type)` followed by `it->second.get()`: `none` is
the null `loader` pointer (no entry, or an entry holding a null pointer). -/
def findLoader (s : ResourceManager) (type : ResourceType) : Option ResourceLoader :=
  match mapFind s.m_loaders type with
  | some l => l
  | none => none

/-- Append an event to the trace. -/
def emit (s : ResourceManager) (e : Event) : ResourceManager :=
  { s with trace := s.trace ++ [e] }

/-- The call `loader->load(path, type)`: the call is traced and a produced object
receives the next fresh identity. -/
def callLoader (s : ResourceManager) (loader : ResourceLoader) (path : String)
    (type : ResourceType) : Option Resource × ResourceManager :=
  match loader.load path type with
  | some r0 =>
    (some { r0 with id := s.nextId },
      { s with nextId := s.nextId + 1, trace := s.trace ++ [.loaderLoad path type] })
  | none => (none, s.emit (.loaderLoad path type))

/-- The method `ResourceManager::init`. -/
def init (s : ResourceManager) : Bool × ResourceManager :=
  if s.m_running = false then
    (true, { s with m_running := true, trace := s.trace ++ [.threadStart] })
  else (true, s)

/-- The method `ResourceManager::setLoader`. -/
def setLoader (s : ResourceManager) (type : ResourceType) (loader : Option ResourceLoader) :
    ResourceManager :=
  { s with m_loaders := mapAssign s.m_loaders type loader }

/-- The method `ResourceManager::loadResource`. -/
def loadResource (s : ResourceManager) (path : String) (type : ResourceType) :
    Option Resource × ResourceManager :=
  match mapFind s.m_resources path with
  | some r => (some r, s)
  | none =>
    match s.findLoader type with
    | none => (none, s)
    | some loader =>
      match s.callLoader loader path type with
      | (none, s1) => (none, s1)
      | (some resource, s1) =>
        let s2 := s1.emit (.resourceLoad resource.id)
        if resource.load.1 = true then
          let resourcePtr := resource.load.2
          (some resourcePtr,
            { s2 with m_resources := mapAssign s2.m_resources path resourcePtr,
                      m_totalMemoryUsage := s2.m_totalMemoryUsage + resourcePtr.getSize })
        else (none, s2)

/-- The lambda stored in a request by `loadResourceAsync` (lines 123-132), applied
to what the worker hands it; `callback` is the captured user callback. -/
def requestCallback (s : ResourceManager) (callback : Nat) (resource : Option Resource) :
    ResourceManager :=
  match resource with
  | some r =>
    if r.getStatus = ResourceStatus.LOADED then
      { s with m_resources := mapAssign s.m_resources r.getPath r,
               m_totalMemoryUsage := s.m_totalMemoryUsage + r.getSize,
               trace := s.trace ++ [.callback callback (some r)] }
    else s.emit (.callback callback none)
  | none => s.emit (.callback callback none)

/-- The method `ResourceManager::loadResourceAsync`.  In the already-loaded case
the callback runs on a detached thread; its invocation is traced at once. -/
def loadResourceAsync (s : ResourceManager) (path : String) (type : ResourceType)
    (callback : Nat) : ResourceManager :=
  match mapFind s.m_resources path with
  | some resource => s.emit (.callback callback (some resource))
  | none =>
    { s with m_loadRequests :=
        s.m_loadRequests ++ [{ path := path, type := type, callback := callback }] }

/-- The body of the request loop of `processLoadRequests` (lines 205-225) for one
request. -/
def processRequest (s : ResourceManager) (request : ResourceLoadRequest) : ResourceManager :=
  match s.findLoader request.type with
  | some loader =>
    match s.callLoader loader request.path request.type with
    | (some resource, s1) =>
      requestCallback (s1.emit (.resourceLoad resource.id)) request.callback
        (some resource.load.2)
    | (none, s1) => requestCallback s1 request.callback none
  | none => requestCallback s request.callback none

/-- One turn of the worker loop of `processLoadRequests` once its wait is over:
it exits when `m_running` is false, and otherwise swaps the pending list out and
handles the swapped requests in order.  With nothing pending the worker waits. -/
def workerTurn (s : ResourceManager) : ResourceManager :=
  if s.m_running = false then s
  else
    match s.m_loadRequests with
    | [] => s
    | requests => requests.foldl processRequest { s with m_loadRequests := [] }

/-- The method `ResourceManager::unloadResource`. -/
def unloadResource (s : ResourceManager) (path : String) : ResourceManager :=
  match mapFind s.m_resources path with
  | some r =>
    { s with m_totalMemoryUsage := s.m_totalMemoryUsage - r.getSize,
             trace := s.trace ++ [.resourceUnload r.id],
             m_resources := mapErase s.m_resources path }
  | none => s

/-- The method `ResourceManager::unloadAllResources`. -/
def unloadAllResources (s : ResourceManager) : ResourceManager :=
  { s with trace := s.trace ++ s.m_resources.map (fun p => Event.resourceUnload p.2.id),
           m_resources := [],
           m_totalMemoryUsage := 0 }

/-- The method `ResourceManager::cleanup`. -/
def cleanup (s : ResourceManager) : ResourceManager :=
  let s1 := if s.m_running = true then
      { s with m_running := false, trace := s.trace ++ [.threadJoin] }
    else s
  { unloadAllResources s1 with m_loaders := [] }

/-- The method `ResourceManager::getResource`. -/
def getResource (s : ResourceManager) (path : String) : Option Resource :=
  mapFind s.m_resources path

/-- The method `ResourceManager::isResourceLoaded`. -/
def isResourceLoaded (s : ResourceManager) (path : String) : Bool :=
  (mapFind s.m_resources path).isSome

/-- The method `ResourceManager::preloadResources`. -/
def preloadResources (s : ResourceManager) (resources : List (String × ResourceType)) :
    ResourceManager :=
  resources.foldl (fun acc pair => (acc.loadResource pair.1 pair.2).2) s

/-- The method `ResourceManager::getLoadedResourceCount`. -/
def getLoadedResourceCount (s : ResourceManager) : Nat := s.m_resources.length

/-- The method `ResourceManager::getTotalMemoryUsage`. -/
def getTotalMemoryUsage (s : ResourceManager) : Nat := s.m_totalMemoryUsage

/-- The sum of `getSize()` over the entries of the resources map. -/
def resourceSizeSum (s : ResourceManager) : Nat :=
  (s.m_resources.map fun p => p.2.getSize).sum

end ResourceManager

/-- A call of a public `ResourceManager` method, or a turn of the worker. -/
inductive ManagerOp where
  | init
  | setLoader (type : ResourceType) (loader : Option ResourceLoader)
  | loadResource (path : String) (type : ResourceType)
  | preloadResources (resources : List (String × ResourceType))
  | loadResourceAsync (path : String) (type : ResourceType) (callback : Nat)
  | workerTurn
  | unloadResource (path : String)
  | unloadAllResources
  | getResource (path : String)

namespace ResourceManager

/-- The manager after one operation. -/
def step (s : ResourceManager) : ManagerOp → ResourceManager
  | .init => s.init.2
  | .setLoader type loader => s.setLoader type loader
  | .loadResource path type => (s.loadResource path type).2
  | .preloadResources resources => s.preloadResources resources
  | .loadResourceAsync path type callback => s.loadResourceAsync path type callback
  | .workerTurn => s.workerTurn
  | .unloadResource path => s.unloadResource path
  | .unloadAllResources => s.unloadAllResources
  | .getResource _ => s

/-- The manager after a sequence of operations. -/
def run (ops : List ManagerOp) (s : ResourceManager) : ResourceManager :=
  ops.foldl step s

end ResourceManager

/-- A texture loader: every call produces a 100-byte resource for the requested
path whose `load()` succeeds and leaves the status `LOADED`. -/
def textureLoader : ResourceLoader :=
  { load := fun path type =>
      some { id := 0, m_name := path, m_path := path, m_type := type,
             m_status := ResourceStatus.UNLOADED, size := 100, loadResult := true,
             loadStatus := ResourceStatus.LOADED } }

/-- A loader whose resources fail in `load()` (Scenario B). -/
def failingLoader : ResourceLoader :=
  { load := fun path type =>
      some { id := 0, m_name := path, m_path := path, m_type := type,
             m_status := ResourceStatus.UNLOADED, size := 100, loadResult := false,
             loadStatus := ResourceStatus.FAILED } }

/-- Two asynchronous requests for the same unloaded path are queued, then the
worker is started and handles both. -/
def doubleRequestOps : List ManagerOp :=
  [.setLoader ResourceType.TEXTURE (some textureLoader),
   .loadResourceAsync "a" ResourceType.TEXTURE 1,
   .loadResourceAsync "a" ResourceType.TEXTURE 2,
   .init,
   .workerTurn]

/-- A manager with a texture loader and one queued asynchronous request for "a";
the worker has not been started. -/
def queuedManager : ResourceManager :=
  ResourceManager.run
    [.setLoader ResourceType.TEXTURE (some textureLoader),
     .loadResourceAsync "a" ResourceType.TEXTURE 1]
    ResourceManager.new

/-- A manager with a texture loader registered and nothing loaded. -/
def textureManager : ResourceManager :=
  ResourceManager.new.setLoader ResourceType.TEXTURE (some textureLoader)

/-- A manager whose texture loader produces resources that fail to load. -/
def failingManager : ResourceManager :=
  ResourceManager.new.setLoader ResourceType.TEXTURE (some failingLoader)

/-! ## Traces, reachable states and request scripts -/

/-- The user callbacks invoked in a trace, in the order of their invocation. -/
def callbackIds : List Event → List Nat
  | [] => []
  | .callback cb _ :: rest => cb :: callbackIds rest
  | .loaderLoad _ _ :: rest => callbackIds rest
  | .resourceLoad _ :: rest => callbackIds rest
  | .resourceUnload _ :: rest => callbackIds rest
  | .threadStart :: rest => callbackIds rest
  | .threadJoin :: rest => callbackIds rest

namespace ResourceManager

/-- A script of `loadResourceAsync` calls, each on a path that is not loaded when
the call is made, interleaved with turns of the worker. -/
def asyncScript : ResourceManager → List ManagerOp → Prop
  | _, [] => True
  | s, .loadResourceAsync path type callback :: rest =>
    mapFind s.m_resources path = none
      ∧ asyncScript (s.loadResourceAsync path type callback) rest
  | s, .workerTurn :: rest => asyncScript s.workerTurn rest
  | _, .init :: _ => False
  | _, .setLoader _ _ :: _ => False
  | _, .loadResource _ _ :: _ => False
  | _, .preloadResources _ :: _ => False
  | _, .unloadResource _ :: _ => False
  | _, .unloadAllResources :: _ => False
  | _, .getResource _ :: _ => False

/-- The user callbacks handed to `loadResourceAsync` by a script, in call order. -/
def enqueuedCallbacks : List ManagerOp → List Nat
  | [] => []
  | .loadResourceAsync _ _ callback :: rest => callback :: enqueuedCallbacks rest
  | .workerTurn :: rest => enqueuedCallbacks rest
  | .init :: rest => enqueuedCallbacks rest
  | .setLoader _ _ :: rest => enqueuedCallbacks rest
  | .loadResource _ _ :: rest => enqueuedCallbacks rest
  | .preloadResources _ :: rest => enqueuedCallbacks rest
  | .unloadResource _ :: rest => enqueuedCallbacks rest
  | .unloadAllResources :: rest => enqueuedCallbacks rest
  | .getResource _ :: rest => enqueuedCallbacks rest

/-- The operation is a call of `setLoader`. -/
def isSetLoader : ManagerOp → Bool
  | .setLoader _ _ => true
  | .init => false
  | .loadResource _ _ => false
  | .preloadResources _ => false
  | .loadResourceAsync _ _ _ => false
  | .workerTurn => false
  | .unloadResource _ => false
  | .unloadAllResources => false
  | .getResource _ => false

end ResourceManager

/-- A loader whose resources return false from `load()` although they end up with
status `LOADED`. -/
def inconsistentLoader : ResourceLoader :=
  { load := fun path type =>
      some { id := 0, m_name := path, m_path := path, m_type := type,
             m_status := ResourceStatus.UNLOADED, size := 100, loadResult := false,
             loadStatus := ResourceStatus.LOADED } }

/-- A manager with `inconsistentLoader` registered for textures. -/
def inconsistentManager : ResourceManager :=
  ResourceManager.new.setLoader ResourceType.TEXTURE (some inconsistentLoader)

/-- A manager with a texture loader in which "a" has been loaded. -/
def loadedManager : ResourceManager :=
  (textureManager.loadResource "a" ResourceType.TEXTURE).2

/-- A manager with a texture loader whose worker has been started. -/
def runningManager : ResourceManager := textureManager.init.2

/-- Three asynchronous requests, handled by the worker in two batches. -/
def twoBatchScript : List ManagerOp :=
  [.loadResourceAsync "a" ResourceType.TEXTURE 1,
   .loadResourceAsync "b" ResourceType.TEXTURE 2,
   .workerTurn,
   .loadResourceAsync "c" ResourceType.TEXTURE 3]

/-- A preload batch whose first pair has no loader and whose second pair loads. -/
def mixedBatch : List (String × ResourceType) :=
  [("x.wav", ResourceType.SOUND), ("a", ResourceType.TEXTURE)]

/-! ## Concrete cache inputs for refusal and limit changes -/

/-- The calls that fill a cache of limit 1000 with "a" (300 bytes) and "b" (600
bytes). -/
def nearlyFullOps : List (Nat × CacheOp) :=
  [(0, .setCacheSizeLimit 1000), (1, .cacheResource "a" (sampleResource 1 300)),
   (2, .cacheResource "b" (sampleResource 2 600))]

/-- The calls that fill a cache of limit 1000 with three entries of 300 bytes. -/
def threeEntryOps : List (Nat × CacheOp) :=
  [(0, .setCacheSizeLimit 1000), (1, .cacheResource "a" (sampleResource 1 300)),
   (2, .cacheResource "b" (sampleResource 2 300)),
   (3, .cacheResource "c" (sampleResource 3 300))]

/-! ## UIManager: screen size -/

/-- Calls from `UIManager::resize` into the UI elements and the sub-UIs. -/
inductive UICall where
  | setScale (element : Nat) (scale : ℚ)
  | hudResize (width height : Int)
  | inventoryResize (width height : Int)
  | shopResize (width height : Int)
  deriving DecidableEq

/-- The part of the `UIManager` state that the screen-size methods read or write:
whether the sub-UI pointers are set, the screen size, the scale factor, the number
of UI elements, and the calls made so far. -/
structure UIManager where
  m_hud : Bool
  m_inventoryUI : Bool
  m_shopUI : Bool
  m_screenWidth : Int
  m_screenHeight : Int
  m_uiScaleFactor : ℚ
  m_uiElements : Nat
  calls : List UICall

namespace UIManager

/-- The constructor: no sub-UI, screen 1920 x 1080, scale factor 1. -/
def new : UIManager :=
  { m_hud := false, m_inventoryUI := false, m_shopUI := false, m_screenWidth := 1920,
    m_screenHeight := 1080, m_uiScaleFactor := 1, m_uiElements := 0, calls := [] }

/-- The method `UIManager::getScreenSize` (its two out-parameters as a pair). -/
def getScreenSize (s : UIManager) : Int × Int := (s.m_screenWidth, s.m_screenHeight)

/-- The method `UIManager::resizeUIElements`: one `setScale` per element. -/
def resizeUIElements (s : UIManager) (width height : Int) : UIManager :=
  { s with calls := s.calls ++ (List.range s.m_uiElements).map fun i =>
      UICall.setScale i (min ((width : ℚ) / 1920) ((height : ℚ) / 1080) * s.m_uiScaleFactor) }

/-- The statements of `UIManager::resize` after its call of `setScreenSize`. -/
def resizeTail (s : UIManager) (width height : Int) : UIManager :=
  let s1 := resizeUIElements s width height
  let s2 := if s1.m_hud then { s1 with calls := s1.calls ++ [.hudResize width height] } else s1
  let s3 := if s2.m_inventoryUI then
      { s2 with calls := s2.calls ++ [.inventoryResize width height] } else s2
  if s3.m_shopUI then { s3 with calls := s3.calls ++ [.shopResize width height] } else s3

/-- The mutually recursive pair `UIManager::setScreenSize` (`viaSet` true) and
`UIManager::resize` (`viaSet` false), with `fuel` bounding the depth of nested
calls: `none` means the call has not returned within that depth. -/
def screenCall : Nat → Bool → UIManager → Int → Int → Option UIManager
  | 0, _, _, _, _ => none
  | fuel + 1, true, s, width, height =>
    screenCall fuel false { s with m_screenWidth := width, m_screenHeight := height }
      width height
  | fuel + 1, false, s, width, height =>
    match screenCall fuel true s width height with
    | some s1 => some (resizeTail s1 width height)
    | none => none

/-- The method `UIManager::setScreenSize`: it stores the size and calls `resize`. -/
def setScreenSize (fuel : Nat) (s : UIManager) (width height : Int) : Option UIManager :=
  screenCall fuel true s width height

/-- The method `UIManager::resize`: it calls `setScreenSize` and then resizes the
elements and the sub-UIs. -/
def resize (fuel : Nat) (s : UIManager) (width height : Int) : Option UIManager :=
  screenCall fuel false s width height

end UIManager

/-! ## `float32` arithmetic

A `float32` is an IEEE 754 binary32 value: NaN, an infinity, or a finite number
`m * 2 ^ e`.  Every operation rounds its exact result once, to the nearest
binary32 value with ties to the even significand (no excess precision and no
fused multiply-add); a result of magnitude `2 ^ 128` or more is an infinity, and
results below `2 ^ -126` are rounded to multiples of `2 ^ -149`.  Comparisons with
NaN are false.  The sign of a zero and the payload of a NaN are not kept: the
embedded code adds, subtracts, multiplies, compares and takes absolute values,
none of which can tell them apart. -/

/-- A `float32` value; `fin m e` is the number `m * 2 ^ e`. -/
inductive F32 where
  | nan
  | inf (negative : Bool)
  | fin (m : Int) (e : Int)
  deriving DecidableEq

namespace F32

/-- The number of binary digits of `n` (`fuel` bounds the search). -/
def bitLength (n : Nat) : Nat → Nat
  | 0 => 0
  | fuel + 1 => if n = 0 then 0 else bitLength (n / 2) fuel + 1

/-- The number of trailing zero bits of a non-zero `n` (`fuel` bounds the
search). -/
def trailingZeros (n : Nat) : Nat → Nat
  | 0 => 0
  | fuel + 1 => if n % 2 = 1 then 0 else trailingZeros (n / 2) fuel + 1

/-- The canonical form of `m * 2 ^ e`: an odd `m`, or zero written `0 * 2 ^ 0`. -/
def normal (m e : Int) : F32 :=
  if m = 0 then fin 0 0
  else fin (m / 2 ^ trailingZeros m.natAbs m.natAbs) (e + trailingZeros m.natAbs m.natAbs)

/-- Rounding of the exact result `m * 2 ^ e` to `float32`.  `qe` is the exponent
of the last significand bit for a number of that magnitude, `shift` the number of
bits of `m` below it, and `M` the rounded significand. -/
def round (m e : Int) : F32 :=
  if m = 0 then fin 0 0
  else
    let a := m.natAbs
    let qe : Int := max ((bitLength a a : Int) - 1 + e) (-126) - 23
    let shift := (qe - e).toNat
    let q := a / 2 ^ shift
    let r := a % 2 ^ shift
    let M := if 2 * r < 2 ^ shift ∨ (2 * r = 2 ^ shift ∧ q % 2 = 0) then q else q + 1
    if (bitLength M M : Int) + (e + shift) > 128 then inf (decide (m < 0))
    else normal (if m < 0 then -(M : Int) else M) (e + shift)

/-- The literal `0.0f`. -/
def zero : F32 := fin 0 0

/-- A literal with an integer value, such as `1.0f` or `180.0f`. -/
def ofNat (n : Nat) : F32 := round n 0

/-- The sum `x + y`. -/
def add : F32 → F32 → F32
  | nan, _ => nan
  | _, nan => nan
  | inf s, inf t => if s = t then inf s else nan
  | inf s, fin _ _ => inf s
  | fin _ _, inf t => inf t
  | fin m1 e1, fin m2 e2 =>
    round (m1 * 2 ^ (e1 - min e1 e2).toNat + m2 * 2 ^ (e2 - min e1 e2).toNat) (min e1 e2)

/-- The negation `-x`. -/
def neg : F32 → F32
  | nan => nan
  | inf s => inf (!s)
  | fin m e => fin (-m) e

/-- The difference `x - y`. -/
def sub (x y : F32) : F32 := add x (neg y)

/-- The product `x * y`. -/
def mul : F32 → F32 → F32
  | nan, _ => nan
  | _, nan => nan
  | inf s, inf t => inf (s != t)
  | inf s, fin m _ => if m = 0 then nan else inf (s != decide (m < 0))
  | fin m _, inf t => if m = 0 then nan else inf (decide (m < 0) != t)
  | fin m1 e1, fin m2 e2 => round (m1 * m2) (e1 + e2)

/-- The call `std::abs(x)`. -/
def abs : F32 → F32
  | nan => nan
  | inf _ => inf false
  | fin m e => fin |m| e

/-- The comparison `x < y`. -/
def lt : F32 → F32 → Bool
  | nan, _ => false
  | _, nan => false
  | inf s, inf t => s && !t
  | inf s, fin _ _ => s
  | fin _ _, inf t => !t
  | fin m1 e1, fin m2 e2 =>
    decide (m1 * 2 ^ (e1 - min e1 e2).toNat < m2 * 2 ^ (e2 - min e1 e2).toNat)

/-- The comparison `x <= y`. -/
def le : F32 → F32 → Bool
  | nan, _ => false
  | _, nan => false
  | inf s, inf t => s || !t
  | inf s, fin _ _ => s
  | fin _ _, inf t => !t
  | fin m1 e1, fin m2 e2 =>
    decide (m1 * 2 ^ (e1 - min e1 e2).toNat ≤ m2 * 2 ^ (e2 - min e1 e2).toNat)

/-- The comparison `x > y`. -/
def gt (x y : F32) : Bool := lt y x

/-- The comparison `x >= y`. -/
def ge (x y : F32) : Bool := le y x

/-- The value lies in the closed interval [0, 1]. -/
def inUnitInterval (x : F32) : Bool := le zero x && le x (ofNat 1)

end F32

/-! ## FishingSystem

`float32` quantities are `F32` values; the literals `0.05f`, `0.02f` and `0.5f`
are the binary32 values nearest to the decimal fractions, `13421773 * 2 ^ -28`,
`5368709 * 2 ^ -28` and `2 ^ -1`.  The outcome of `FishManager::init`,
`PhysicsManager::init` and of the random fish spawn (code outside `FishingSystem`)
is an argument of the operation that asks for it. -/

/-- The states of a fishing attempt (`enum class FishingState`). -/
inductive FishingState where
  | IDLE | CASTING | WAITING | HOOKED | REELING | CAUGHT | FAILED
  deriving DecidableEq, Repr

/-- What `spawnFish` reads from the fish handed back by `spawnRandomFish`. -/
structure Fish where
  typeID : Nat
  size : F32
  weight : F32
  strength : F32
  deriving DecidableEq

/-- The fields of `PlayerData` that `handleCatchSuccess` writes. -/
structure PlayerData where
  experience : F32
  money : Int
  caughtFish : List Nat
  deriving DecidableEq

/-- The state of a `FishingSystem`; `m_playerData` is `none` for a null pointer. -/
structure FishingSystem where
  m_fishingState : FishingState
  m_currentFishingSpot : Nat
  m_currentFish : Nat
  m_currentFishSize : F32
  m_currentFishWeight : F32
  m_reelingProgress : F32
  m_fishStrength : F32
  m_lineTension : F32
  m_isFishing : Bool
  m_playerData : Option PlayerData
  m_castPower : F32
  m_castAngle : F32
  m_reelPower : F32
  m_fishingTime : F32
  m_hookTime : F32
  m_maxFishingTime : F32
  m_maxReelingTime : F32
  deriving DecidableEq

namespace FishingSystem

/-- The constructor. -/
def new : FishingSystem :=
  { m_fishingState := FishingState.IDLE, m_currentFishingSpot := 0, m_currentFish := 0,
    m_currentFishSize := F32.zero, m_currentFishWeight := F32.zero,
    m_reelingProgress := F32.zero, m_fishStrength := F32.zero, m_lineTension := F32.zero,
    m_isFishing := false, m_playerData := none, m_castPower := F32.zero,
    m_castAngle := F32.zero, m_reelPower := F32.zero, m_fishingTime := F32.zero,
    m_hookTime := F32.zero, m_maxFishingTime := F32.ofNat 60, m_maxReelingTime := F32.ofNat 30 }

/-- The private `FishingSystem::initFishingState`. -/
def initFishingState (s : FishingSystem) : FishingSystem :=
  { s with m_fishingState := FishingState.IDLE, m_currentFish := 0,
           m_currentFishSize := F32.zero, m_currentFishWeight := F32.zero,
           m_reelingProgress := F32.zero, m_fishStrength := F32.zero,
           m_lineTension := F32.zero, m_castPower := F32.zero, m_castAngle := F32.zero,
           m_reelPower := F32.zero, m_fishingTime := F32.zero, m_hookTime := F32.zero }

/-- The method `FishingSystem::init`; the arguments are the results of
`m_fishManager->init()` and `m_physicsManager->init()`. -/
def init (s : FishingSystem) (fishManagerOk physicsManagerOk : Bool) : Bool × FishingSystem :=
  if fishManagerOk = false then (false, s)
  else if physicsManagerOk = false then (false, s)
  else (true, s.initFishingState)

/-- The method `FishingSystem::startFishing`. -/
def startFishing (s : FishingSystem) (spotId : Nat) : Bool × FishingSystem :=
  if s.m_isFishing = true then (false, s)
  else (true, { initFishingState { s with m_currentFishingSpot := spotId } with
                m_isFishing := true })

/-- The method `FishingSystem::stopFishing`. -/
def stopFishing (s : FishingSystem) : FishingSystem :=
  if s.m_isFishing = false then s
  else { s.initFishingState with m_isFishing := false }

/-- The method `FishingSystem::castRod`. -/
def castRod (s : FishingSystem) (power angle : F32) : Bool × FishingSystem :=
  if s.m_fishingState ≠ FishingState.IDLE ∧ s.m_fishingState ≠ FishingState.FAILED then
    (false, s)
  else if (power.lt F32.zero || power.gt (F32.ofNat 1)) = true then (false, s)
  else if (angle.lt F32.zero || angle.gt (F32.ofNat 180)) = true then (false, s)
  else (true, { s with m_castPower := power, m_castAngle := angle,
                       m_fishingState := FishingState.CASTING, m_fishingTime := F32.zero })

/-- The method `FishingSystem::reelIn`. -/
def reelIn (s : FishingSystem) (power : F32) : Bool × FishingSystem :=
  if s.m_fishingState ≠ FishingState.WAITING ∧ s.m_fishingState ≠ FishingState.HOOKED
      ∧ s.m_fishingState ≠ FishingState.REELING then (false, s)
  else if (power.lt F32.zero || power.gt (F32.ofNat 1)) = true then (false, s)
  else
    let s1 := { s with m_reelPower := power }
    if s1.m_fishingState = FishingState.WAITING then
      (true, { s1 with m_fishingState := FishingState.FAILED })
    else if s1.m_fishingState = FishingState.HOOKED then
      (true, { s1 with m_fishingState := FishingState.REELING })
    else (true, s1)

/-- The method `FishingSystem::abandonFishing`. -/
def abandonFishing (s : FishingSystem) : FishingSystem :=
  if s.m_isFishing = true then s.stopFishing else s

/-- The accessor `FishingSystem::getFishingState`. -/
def getFishingState (s : FishingSystem) : FishingState := s.m_fishingState

/-- The accessor `FishingSystem::getReelingProgress`. -/
def getReelingProgress (s : FishingSystem) : F32 := s.m_reelingProgress

/-- The accessor `FishingSystem::getLineTension`. -/
def getLineTension (s : FishingSystem) : F32 := s.m_lineTension

/-- The private `FishingSystem::calculateReelingProgress`. -/
def calculateReelingProgress (s : FishingSystem) (deltaTime : F32) : FishingSystem :=
  let reelSpeed := s.m_reelPower.mul (F32.fin 13421773 (-28))
  let fishResistance := s.m_fishStrength.mul (F32.fin 5368709 (-28))
  let progress := s.m_reelingProgress.add ((reelSpeed.sub fishResistance).mul deltaTime)
  if progress.lt F32.zero = true then { s with m_reelingProgress := F32.zero }
  else if progress.gt (F32.ofNat 1) = true then { s with m_reelingProgress := F32.ofNat 1 }
  else { s with m_reelingProgress := progress }

/-- The private `FishingSystem::calculateLineTension`. -/
def calculateLineTension (s : FishingSystem) : FishingSystem :=
  let tension := (s.m_reelPower.sub (s.m_fishStrength.mul (F32.fin 1 (-1)))).abs
  if tension.lt F32.zero = true then { s with m_lineTension := F32.zero }
  else if tension.gt (F32.ofNat 1) = true then { s with m_lineTension := F32.ofNat 1 }
  else { s with m_lineTension := tension }

/-- The private `FishingSystem::checkCatchSuccess`. -/
def checkCatchSuccess (s : FishingSystem) : Bool := s.m_reelingProgress.ge (F32.ofNat 1)

/-- The private `FishingSystem::checkCatchFailure`. -/
def checkCatchFailure (s : FishingSystem) : Bool :=
  s.m_lineTension.ge (F32.ofNat 1) || s.m_reelingProgress.le F32.zero

/-- The private `FishingSystem::handleCatchSuccess`; the `int32` field `money` is
an integer (signed overflow is not modelled). -/
def handleCatchSuccess (s : FishingSystem) : FishingSystem :=
  match s.m_playerData with
  | some p =>
    { s with m_playerData := some { p with experience := p.experience.add (F32.ofNat 10),
                                           money := p.money + 50,
                                           caughtFish := p.caughtFish ++ [s.m_currentFish] } }
  | none => s

/-- The private `FishingSystem::spawnFish`; `spawn` is the fish produced by the
random draw and `spawnRandomFish`, if any. -/
def spawnFish (s : FishingSystem) (spawn : Option Fish) : Bool × FishingSystem :=
  match spawn with
  | some fish =>
    (true, { s with m_currentFish := fish.typeID, m_currentFishSize := fish.size,
                    m_currentFishWeight := fish.weight, m_fishStrength := fish.strength })
  | none => (false, s)

/-- The private `FishingSystem::handleCastingState`. -/
def handleCastingState (s : FishingSystem) (deltaTime : F32) : FishingSystem :=
  let s1 := { s with m_fishingTime := s.m_fishingTime.add deltaTime }
  if s1.m_fishingTime.ge (F32.ofNat 1) = true then
    { s1 with m_fishingState := FishingState.WAITING, m_fishingTime := F32.zero }
  else s1

/-- The private `FishingSystem::handleWaitingState`. -/
def handleWaitingState (s : FishingSystem) (deltaTime : F32) (spawn : Option Fish) :
    FishingSystem :=
  let s1 := { s with m_fishingTime := s.m_fishingTime.add deltaTime }
  if s1.m_fishingTime.ge s1.m_maxFishingTime = true then
    { s1 with m_fishingState := FishingState.FAILED }
  else if (s1.spawnFish spawn).1 = true then
    { (s1.spawnFish spawn).2 with m_fishingState := FishingState.HOOKED,
                                  m_hookTime := F32.zero }
  else (s1.spawnFish spawn).2

/-- The private `FishingSystem::handleHookedState`. -/
def handleHookedState (s : FishingSystem) (deltaTime : F32) : FishingSystem :=
  let s1 := { s with m_hookTime := s.m_hookTime.add deltaTime }
  if s1.m_hookTime.ge (F32.ofNat 2) = true then
    { s1 with m_fishingState := FishingState.FAILED }
  else s1

/-- The private `FishingSystem::handleReelingState`. -/
def handleReelingState (s : FishingSystem) (deltaTime : F32) : FishingSystem :=
  let s1 := (s.calculateReelingProgress deltaTime).calculateLineTension
  if s1.checkCatchSuccess = true then
    handleCatchSuccess { s1 with m_fishingState := FishingState.CAUGHT }
  else if s1.checkCatchFailure = true then
    { s1 with m_fishingState := FishingState.FAILED }
  else s1

/-- The private `FishingSystem::handleCaughtState`. -/
def handleCaughtState (s : FishingSystem) (deltaTime : F32) : FishingSystem :=
  let s1 := { s with m_fishingTime := s.m_fishingTime.add deltaTime }
  if s1.m_fishingTime.ge (F32.ofNat 3) = true then
    { s1 with m_fishingState := FishingState.IDLE, m_fishingTime := F32.zero }
  else s1

/-- The private `FishingSystem::handleFailedState`. -/
def handleFailedState (s : FishingSystem) (deltaTime : F32) : FishingSystem :=
  let s1 := { s with m_fishingTime := s.m_fishingTime.add deltaTime }
  if s1.m_fishingTime.ge (F32.ofNat 2) = true then
    { s1 with m_fishingState := FishingState.IDLE, m_fishingTime := F32.zero }
  else s1

/-- The private `FishingSystem::handleFishingState`. -/
def handleFishingState (s : FishingSystem) (deltaTime : F32) (spawn : Option Fish) :
    FishingSystem :=
  match s.m_fishingState with
  | .CASTING => s.handleCastingState deltaTime
  | .WAITING => s.handleWaitingState deltaTime spawn
  | .HOOKED => s.handleHookedState deltaTime
  | .REELING => s.handleReelingState deltaTime
  | .CAUGHT => s.handleCaughtState deltaTime
  | .FAILED => s.handleFailedState deltaTime
  | .IDLE => s

/-- The method `FishingSystem::update`. -/
def update (s : FishingSystem) (deltaTime : F32) (spawn : Option Fish) : FishingSystem :=
  if s.m_isFishing = true then s.handleFishingState deltaTime spawn else s

end FishingSystem

/-- A call of a public `FishingSystem` method, with the outcomes it obtains from
its collaborators. -/
inductive FishingOp where
  | init (fishManagerOk physicsManagerOk : Bool)
  | startFishing (spotId : Nat)
  | castRod (power angle : F32)
  | reelIn (power : F32)
  | update (deltaTime : F32) (spawn : Option Fish)
  | stopFishing
  | abandonFishing

namespace FishingSystem

/-- The system after one call. -/
def step (s : FishingSystem) : FishingOp → FishingSystem
  | .init fishManagerOk physicsManagerOk => (s.init fishManagerOk physicsManagerOk).2
  | .startFishing spotId => (s.startFishing spotId).2
  | .castRod power angle => (s.castRod power angle).2
  | .reelIn power => (s.reelIn power).2
  | .update deltaTime spawn => s.update deltaTime spawn
  | .stopFishing => s.stopFishing
  | .abandonFishing => s.abandonFishing

/-- The system after a sequence of calls. -/
def run (ops : List FishingOp) (s : FishingSystem) : FishingSystem := ops.foldl step s

end FishingSystem

/-- The calls that hook a fish of the given strength: a cast with power 0.5 and
angle 90, one second of casting, and an update in which a fish is spawned. -/
def hookOps (strength : F32) : List FishingOp :=
  [.init true true, .startFishing 1, .castRod (F32.fin 1 (-1)) (F32.ofNat 90),
   .update (F32.ofNat 1) none,
   .update (F32.fin 1 (-4))
     (some { typeID := 3, size := F32.ofNat 2, weight := F32.ofNat 5, strength := strength })]

/-- A hooked fish of strength 0.5 is reeled in with a NaN power, followed by an
update of 1/64 s. -/
def nanReelOps : List FishingOp :=
  hookOps (F32.fin 1 (-1)) ++ [.reelIn F32.nan, .update (F32.fin 1 (-6)) none]

/-- A hooked fish of strength 0 is reeled in with power 0, followed by an update
whose time step is +infinity. -/
def infiniteStepOps : List FishingOp :=
  hookOps F32.zero ++ [.reelIn F32.zero, .update (F32.inf false) none]

/-! ## Config

`std::string` is `String`, read as its list of characters (one per byte);
`int32` values are integers; `float32` values are rational numbers whose text
conversions (`std::to_string`, `operator<<`, `std::stof`) are taken as given.
`std::map` is an association list; its iteration order is the list order. -/

/-- The type tags of configuration values (`enum class ConfigValueType`). -/
inductive ConfigValueType where
  | INT | FLOAT | BOOL | STRING | VECTOR
  deriving DecidableEq, Repr

/-- A configuration value: one constructor per subclass of `ConfigValue`. -/
inductive ConfigValue where
  | int (m_value : Int)
  | float (m_value : ℚ)
  | bool (m_value : Bool)
  | string (m_value : String)
  | vector (m_value : List ℚ)
  deriving DecidableEq

/-- The library conversions between `float32` values and text used by `Config`:
`std::to_string(float)`, `operator<<` on a stream, and `std::stof`, which yields
the value and the number of characters consumed, or `none` when it throws. -/
structure FloatText where
  to_string : ℚ → String
  stream : ℚ → String
  stof : List Char → Option (ℚ × Nat)

/-- The call `std::to_string(int)`: decimal digits, with a minus sign for negative
values. -/
def intToString (v : Int) : String :=
  if v < 0 then "-" ++ Nat.repr (-v).toNat else Nat.repr v.toNat

/-- The test `isspace` of the C locale. -/
def isSpaceChar (c : Char) : Bool :=
  c = ' ' || c = '\t' || c = '\n' || c = '\x0b' || c = '\x0c' || c = '\r'

/-- The value of a run of decimal digits. -/
def digitsValue (ds : List Char) : Nat :=
  ds.foldl (fun acc c => 10 * acc + (c.toNat - 48)) 0

/-- The call `std::stoi(str, &pos)`: leading white space, an optional sign and
decimal digits; the result is the value and `pos`, or `none` when it throws
(no digits, or a value outside the range of `int`). -/
def stoi (str : List Char) : Option (Int × Nat) :=
  let blanks := str.takeWhile isSpaceChar
  let rest := str.dropWhile isSpaceChar
  let negative := rest.head? = some '-'
  let signLen := if rest.head? = some '-' ∨ rest.head? = some '+' then 1 else 0
  let digits := (rest.drop signLen).takeWhile Char.isDigit
  if digits = [] then none
  else
    let value : Int := if negative then -(digitsValue digits : Int) else digitsValue digits
    if value < -2147483648 ∨ value > 2147483647 then none
    else some (value, blanks.length + signLen + digits.length)

/-- A blank in the sense of `find_first_not_of(" \t")`. -/
def isBlank (c : Char) : Bool := c = ' ' || c = '\t'

/-- The two `erase` calls of `parseLine` that strip blanks and tabs from both ends
of a string. -/
def trimBlanks (str : List Char) : List Char :=
  ((str.dropWhile isBlank).reverse.dropWhile isBlank).reverse

/-- The lines that successive `std::getline` calls read from a text; `acc` is the
line being read. -/
def getlines : List Char → List Char → List (List Char)
  | [], acc => if acc = [] then [] else [acc]
  | c :: rest, acc => if c = '\n' then acc :: getlines rest [] else getlines rest (acc ++ [c])

namespace ConfigValue

/-- The virtual `ConfigValue::getType`. -/
def getType : ConfigValue → ConfigValueType
  | .int _ => ConfigValueType.INT
  | .float _ => ConfigValueType.FLOAT
  | .bool _ => ConfigValueType.BOOL
  | .string _ => ConfigValueType.STRING
  | .vector _ => ConfigValueType.VECTOR

/-- The virtual `ConfigValue::toString`. -/
def toString (lib : FloatText) : ConfigValue → String
  | .int v => intToString v
  | .float v => lib.to_string v
  | .bool v => if v then "true" else "false"
  | .string v => v
  | .vector v => "[" ++ ", ".intercalate (v.map lib.stream) ++ "]"

end ConfigValue

/-- The state of a `Config`: the map `m_values`. -/
structure Config where
  m_values : List (String × ConfigValue)

namespace Config

/-- The constructor: no values. -/
def new : Config := { m_values := [] }

/-- The five overloads of `Config::set`: the old value of the key, if any, is
deleted and the key is mapped to a new value object. -/
def set (c : Config) (key : String) (value : ConfigValue) : Config :=
  { c with m_values := mapAssign c.m_values key value }

/-- The method `Config::getInt`. -/
def getInt (c : Config) (key : String) (defaultValue : Int) : Int :=
  match mapFind c.m_values key with
  | some (.int v) => v
  | _ => defaultValue

/-- The method `Config::getFloat`. -/
def getFloat (c : Config) (key : String) (defaultValue : ℚ) : ℚ :=
  match mapFind c.m_values key with
  | some (.float v) => v
  | _ => defaultValue

/-- The method `Config::getBool`. -/
def getBool (c : Config) (key : String) (defaultValue : Bool) : Bool :=
  match mapFind c.m_values key with
  | some (.bool v) => v
  | _ => defaultValue

/-- The method `Config::getString`. -/
def getString (c : Config) (key : String) (defaultValue : String) : String :=
  match mapFind c.m_values key with
  | some (.string v) => v
  | _ => defaultValue

/-- The method `Config::getVector`. -/
def getVector (c : Config) (key : String) (defaultValue : List ℚ) : List ℚ :=
  match mapFind c.m_values key with
  | some (.vector v) => v
  | _ => defaultValue

/-- The method `Config::hasKey`. -/
def hasKey (c : Config) (key : String) : Bool := (mapFind c.m_values key).isSome

/-- The method `Config::remove`. -/
def remove (c : Config) (key : String) : Config :=
  match mapFind c.m_values key with
  | some _ => { c with m_values := mapErase c.m_values key }
  | none => c

/-- The method `Config::clear`. -/
def clear (c : Config) : Config := { c with m_values := [] }

/-- The text that `Config::save` writes to a file it could open; `date` and `time`
are the expansions of `__DATE__` and `__TIME__`. -/
def save (lib : FloatText) (date time : String) (c : Config) : List Char :=
  "# Fishing Game Configuration\n".data
    ++ ("# Last modified: " ++ date ++ " " ++ time ++ "\n").data
    ++ "\n".data
    ++ (c.m_values.map fun pair =>
          (pair.1 ++ " = " ++ pair.2.toString lib ++ "\n").data).flatten

/-- The private `Config::parseLine`. -/
def parseLine (lib : FloatText) (c : Config) (line : List Char) : Config :=
  if '=' ∉ line then c
  else
    let key := String.mk (trimBlanks (line.takeWhile fun ch => ch ≠ '='))
    let valueStr := trimBlanks ((line.dropWhile fun ch => ch ≠ '=').drop 1)
    if valueStr = "true".data ∨ valueStr = "false".data then
      c.set key (.bool (decide (valueStr = "true".data)))
    else
      match stoi valueStr with
      | some (intValue, pos) =>
        if pos = valueStr.length then c.set key (.int intValue)
        else
          match lib.stof valueStr with
          | some (floatValue, fpos) =>
            if fpos = valueStr.length then c.set key (.float floatValue)
            else c.set key (.string (String.mk valueStr))
          | none => c.set key (.string (String.mk valueStr))
      | none =>
        match lib.stof valueStr with
        | some (floatValue, fpos) =>
          if fpos = valueStr.length then c.set key (.float floatValue)
          else c.set key (.string (String.mk valueStr))
        | none => c.set key (.string (String.mk valueStr))

/-- The loop of `Config::load` over the lines of the file. -/
def loadLines (lib : FloatText) (c : Config) (lines : List (List Char)) : Config :=
  lines.foldl (fun acc line =>
    if line = [] ∨ line.head? = some '#' then acc else parseLine lib acc line) c

/-- The method `Config::load`; `file` is the text of the file, or `none` when the
file cannot be opened. -/
def load (lib : FloatText) (file : Option (List Char)) (c : Config) : Bool × Config :=
  match file with
  | none => (false, c)
  | some text => (true, loadLines lib c (getlines text []))

end Config

/-- Text conversions for runs in which no text is read as a float: `std::stof`
rejects every string. -/
def plainFloatText : FloatText :=
  { to_string := fun _ => "0.000000", stream := fun _ => "0", stof := fun _ => none }

/-- The configuration of the save-and-load test without its float entry. -/
def testConfig : Config :=
  ((Config.new.set "string_key" (.string "test_string")).set "int_key" (.int 123)).set
    "bool_key" (.bool true)

/-- A configuration holding the string "true" under the key "flag". -/
def trueStringConfig : Config := Config.new.set "flag" (.string "true")

namespace Config

/-- A key that is a plain identifier: not empty, letters, digits and underscores
only. -/
def plainKey (key : String) : Prop :=
  key.data ≠ [] ∧ ∀ ch ∈ key.data, ch.isAlphanum = true ∨ ch = '_'

/-- A string value that `parseLine` reads back as the same string: one line,
no blank or tab at either end, not a boolean literal, and not consumed in full by
`std::stoi` or `std::stof`. -/
def stableText (lib : FloatText) (v : String) : Prop :=
  '\n' ∉ v.data ∧ trimBlanks v.data = v.data
    ∧ v.data ≠ "true".data ∧ v.data ≠ "false".data
    ∧ (∀ n pos, stoi v.data = some (n, pos) → pos ≠ v.data.length)
    ∧ (∀ f pos, lib.stof v.data = some (f, pos) → pos ≠ v.data.length)

/-- The values covered by the save-and-load round trip: every `int32`, every
bool, and the strings that are `stableText`. -/
def storable (lib : FloatText) : ConfigValue → Prop
  | .int v => -2147483648 ≤ v ∧ v ≤ 2147483647
  | .bool _ => True
  | .string v => stableText lib v
  | .float _ => False
  | .vector _ => False

end Config

namespace Config

/-- The line that `save` writes for one entry, without the line end. -/
def entryLine (lib : FloatText) (pair : String × ConfigValue) : List Char :=
  pair.1.data ++ " = ".data ++ (pair.2.toString lib).data

end Config

/-! ## Concrete cache inputs at the edge of the `size_t` and `double` ranges -/

/-- A cache of limit 1000 that holds 400 bytes under key "a". -/
def smallCacheOps : List (Nat × CacheOp) :=
  [(0, .setCacheSizeLimit 1000), (1, .cacheResource "a" (sampleResource 1 400))]

/-- A cache of limit `2 ^ 63` that holds one entry of `2 ^ 62 + 1` bytes. -/
def hugeEntryOps : List (Nat × CacheOp) :=
  [(0, .setCacheSizeLimit (2 ^ 63)), (1, .cacheResource "a" (sampleResource 1 (2 ^ 62 + 1)))]

/-- A cache of limit `5 * 2 ^ 60` that holds one entry of `2 ^ 62 + 1` bytes. -/
def hugeLimitOps : List (Nat × CacheOp) :=
  [(0, .setCacheSizeLimit (5 * 2 ^ 60)),
   (1, .cacheResource "a" (sampleResource 1 (2 ^ 62 + 1)))]

/-! ## Facts about the association lists -/

section MapLemmas

variable {α β : Type} [DecidableEq α]

theorem mapFind_mapAssign_self (m : List (α × β)) (k : α) (v : β) :
    mapFind (mapAssign m k v) k = some v := by
  induction m with
  | nil => simp [mapAssign, mapFind]
  | cons e rest ih =>
    obtain ⟨k', v'⟩ := e
    by_cases h : k' = k
    · simp [mapAssign, mapFind, h]
    · simp [mapAssign, mapFind, h, ih]

theorem mapFind_mapAssign_ne (m : List (α × β)) (k q : α) (v : β) (hq : q ≠ k) :
    mapFind (mapAssign m k v) q = mapFind m q := by
  have hkq : ¬ k = q := fun h => hq h.symm
  induction m with
  | nil => simp [mapAssign, mapFind, hkq]
  | cons e rest ih =>
    obtain ⟨k', v'⟩ := e
    by_cases h : k' = k
    · subst h
      simp [mapAssign, mapFind, hkq]
    · by_cases h2 : k' = q
      · subst h2
        simp [mapAssign, mapFind, h]
      · simp [mapAssign, mapFind, h, h2, ih]

theorem mapFind_mapErase_of_none (m : List (α × β)) (k q : α) (h : mapFind m q = none) :
    mapFind (mapErase m k) q = none := by
  induction m with
  | nil => simp [mapErase, mapFind]
  | cons e rest ih =>
    obtain ⟨k', v'⟩ := e
    by_cases h1 : k' = q
    · simp [mapFind, h1] at h
    · simp only [mapFind, h1, if_false] at h
      by_cases h2 : k' = k
      · simp [mapErase, h2, h]
      · simp [mapErase, h2, mapFind, h1, ih h]

theorem mapFind_some_mem (m : List (α × β)) (k : α) (v : β) (h : mapFind m k = some v) :
    (k, v) ∈ m := by
  induction m with
  | nil => simp [mapFind] at h
  | cons e rest ih =>
    obtain ⟨k', v'⟩ := e
    by_cases h1 : k' = k
    · simp only [mapFind, h1, if_true, Option.some.injEq] at h
      simp [h1, h]
    · simp only [mapFind, h1, if_false] at h
      exact List.mem_cons_of_mem _ (ih h)

theorem mapFind_isSome_of_mem_keys (m : List (α × β)) (k : α) (h : k ∈ mapKeys m) :
    ∃ v, mapFind m k = some v := by
  induction m with
  | nil => simp [mapKeys] at h
  | cons e rest ih =>
    obtain ⟨k', v'⟩ := e
    by_cases h1 : k' = k
    · exact ⟨v', by simp [mapFind, h1]⟩
    · have : k ∈ mapKeys rest := by
        simp only [mapKeys, List.map_cons, List.mem_cons] at h
        rcases h with h | h
        · exact absurd h.symm h1
        · exact h
      obtain ⟨v, hv⟩ := ih this
      exact ⟨v, by simp [mapFind, h1, hv]⟩

theorem mapKeys_mapErase (m : List (α × β)) (k : α) :
    mapKeys (mapErase m k) = (mapKeys m).erase k := by
  induction m with
  | nil => simp [mapErase, mapKeys]
  | cons e rest ih =>
    obtain ⟨k', v'⟩ := e
    by_cases h1 : k' = k
    · simp [mapErase, mapKeys, h1]
    · have ih2 : List.map Prod.fst (mapErase rest k) = (List.map Prod.fst rest).erase k := ih
      simp [mapErase, mapKeys, h1, List.erase_cons_tail, ih2]

theorem mem_of_mem_mapErase (m : List (α × β)) (k : α) (e : α × β)
    (h : e ∈ mapErase m k) : e ∈ m := by
  induction m with
  | nil => simp [mapErase] at h
  | cons e' rest ih =>
    obtain ⟨k', v'⟩ := e'
    by_cases h1 : k' = k
    · simp only [mapErase, h1, if_true] at h
      exact List.mem_cons_of_mem _ h
    · simp only [mapErase, h1, if_false, List.mem_cons] at h
      rcases h with h | h
      · simp [h]
      · exact List.mem_cons_of_mem _ (ih h)

theorem mem_mapErase_or_eq (m : List (α × β)) (k : α) (v : β) (e : α × β)
    (hf : mapFind m k = some v) (he : e ∈ m) : e ∈ mapErase m k ∨ e = (k, v) := by
  induction m with
  | nil => simp at he
  | cons e' rest ih =>
    obtain ⟨k', v'⟩ := e'
    by_cases h1 : k' = k
    · simp only [mapFind, h1, if_true, Option.some.injEq] at hf
      simp only [mapErase, h1, if_true]
      rcases List.mem_cons.mp he with h | h
      · right; rw [h, h1, hf]
      · left; exact h
    · simp only [mapFind, h1, if_false] at hf
      simp only [mapErase, h1, if_false, List.mem_cons]
      rcases List.mem_cons.mp he with h | h
      · left; left; exact h
      · rcases ih hf h with h2 | h2
        · left; right; exact h2
        · right; exact h2

theorem key_ne_of_mem_mapErase (m : List (α × β)) (k : α) (e : α × β)
    (hn : (mapKeys m).Nodup) (h : e ∈ mapErase m k) : e.1 ≠ k := by
  intro hk
  have h1 : e.1 ∈ mapKeys (mapErase m k) := List.mem_map_of_mem Prod.fst h
  rw [mapKeys_mapErase, hk] at h1
  exact (List.Nodup.not_mem_erase hn) h1

theorem nodup_mapKeys_mapErase (m : List (α × β)) (k : α) (hn : (mapKeys m).Nodup) :
    (mapKeys (mapErase m k)).Nodup := by
  rw [mapKeys_mapErase]; exact hn.erase k

end MapLemmas

/-! ## The double comparison of the hysteresis test -/

theorem excessBits_spec : ∀ (fuel n : Nat), n < 2 ^ 53 * 2 ^ fuel →
    n / 2 ^ excessBits n fuel < 2 ^ 53
      ∧ (excessBits n fuel ≠ 0 → 2 ^ 52 ≤ n / 2 ^ excessBits n fuel) := by
  intro fuel
  induction fuel with
  | zero =>
    intro n hn
    simp only [excessBits, pow_zero, Nat.div_one, ne_eq, not_true_eq_false, false_implies,
      and_true]
    simpa using hn
  | succ f ih =>
    intro n hn
    by_cases h : n < 2 ^ 53
    · simp only [excessBits, h, if_true, pow_zero, Nat.div_one, ne_eq, not_true_eq_false,
        false_implies, and_true]
    · have hhalf : n / 2 < 2 ^ 53 * 2 ^ f := by
        rw [pow_succ] at hn
        omega
      obtain ⟨h1, h2⟩ := ih (n / 2) hhalf
      have hdiv : n / 2 ^ (excessBits (n / 2) f + 1) = n / 2 / 2 ^ excessBits (n / 2) f := by
        rw [pow_succ, Nat.mul_comm, Nat.div_div_eq_div_mul]
      simp only [excessBits, h, if_false, hdiv]
      refine ⟨h1, fun _ => ?_⟩
      by_cases hk : excessBits (n / 2) f = 0
      · rw [hk, pow_zero, Nat.div_one]
        omega
      · exact h2 hk

theorem round53_small (n : Nat) (h : n < 2 ^ 53) : round53 n = n := by
  have hk : excessBits n n = 0 := by
    cases n with
    | zero => rfl
    | succ m => simp only [excessBits, h, if_true]
  simp [round53, hk, Nat.mod_one]

theorem lt_excessBits_bound (n : Nat) : n < 2 ^ 53 * 2 ^ n := by
  have h1 : n < 2 ^ n := Nat.lt_two_pow n
  have h2 : 2 ^ n ≤ 2 ^ 53 * 2 ^ n := Nat.le_mul_of_pos_left _ (by positivity)
  omega

/-- What rounding does, in linear form: `K` is the spacing of the doubles around
`n` and `P` the multiple of `K` just below `n`. -/
theorem round53_spec (n : Nat) :
    ∃ K P : Nat, K = 2 ^ excessBits n n ∧ P = n / K * K ∧ P ≤ n ∧ n < P + K
      ∧ (round53 n = P ∧ 2 * (n - P) ≤ K ∨ round53 n = P + K ∧ K ≤ 2 * (n - P))
      ∧ (K = 1 ∨ 2 ^ 52 * K ≤ P) := by
  refine ⟨2 ^ excessBits n n, n / 2 ^ excessBits n n * 2 ^ excessBits n n, rfl, rfl, ?_⟩
  have hKpos : 0 < 2 ^ excessBits n n := by positivity
  generalize hK : 2 ^ excessBits n n = K at hKpos
  have hdm := Nat.div_add_mod n K
  have hmod := Nat.mod_lt n hKpos
  have hP : n / K * K + n % K = n := by rw [Nat.mul_comm]; exact hdm
  have hsub : n - n / K * K = n % K := by omega
  refine ⟨by omega, by omega, ?_, ?_⟩
  · rw [hsub]
    unfold round53
    simp only [hK]
    by_cases hc : 2 * (n % K) < K ∨ (2 * (n % K) = K ∧ n / K % 2 = 0)
    · left
      rw [if_pos hc]
      refine ⟨rfl, ?_⟩
      rcases hc with h | h
      · omega
      · omega
    · right
      rw [if_neg hc]
      refine ⟨by rw [Nat.add_mul, Nat.one_mul], ?_⟩
      by_contra hlt
      exact hc (Or.inl (by omega))
  · by_cases hk : excessBits n n = 0
    · left; rw [← hK, hk, pow_zero]
    · right
      have h2 := (excessBits_spec n n (lt_excessBits_bound n)).2 hk
      rw [hK] at h2
      calc 2 ^ 52 * K ≤ n / K * K := Nat.mul_le_mul_right K h2
  
theorem round53_ge_multiple (n A : Nat) (hdvd : 2 ^ excessBits n n ∣ A) (hle : A ≤ n) :
    A ≤ round53 n := by
  obtain ⟨K, P, hK, hP, -, -, hR, -⟩ := round53_spec n
  have hKpos : 0 < K := by rw [hK]; positivity
  obtain ⟨a, ha⟩ := hdvd
  rw [← hK] at ha
  have h1 : a ≤ n / K := by
    rw [Nat.le_div_iff_mul_le hKpos, Nat.mul_comm, ← ha]; exact hle
  have h2 : A ≤ P := by
    rw [ha, hP, Nat.mul_comm]; exact Nat.mul_le_mul_right K h1
  rcases hR with h | h <;> omega

/-- Below `2 ^ 50` the double comparison of `evictResources` decides exactly
`current ≤ 0.8 × limit`. -/
theorem atTarget_iff_exact (current limit : Nat) (hc : current < 2 ^ 50)
    (hl : limit < 2 ^ 50) : atTarget current limit ↔ 5 * current ≤ 4 * limit := by
  unfold atTarget
  rw [round53_small current (by omega), round53_small limit (by omega)]
  obtain ⟨K, P, hK, hP, hPle, hlt, hR, hK2⟩ := round53_spec (limit * 3602879701896397)
  constructor
  · intro h
    by_contra hnot
    rcases hR with hR | hR <;> rcases hK2 with hK2 | hK2 <;> omega
  · intro h
    apply round53_ge_multiple
    · have hk : excessBits (limit * 3602879701896397) (limit * 3602879701896397) ≤ 52 := by
        by_contra hgt
        have hpow : 2 ^ 53 ≤ 2 ^ excessBits (limit * 3602879701896397)
            (limit * 3602879701896397) := Nat.pow_le_pow_right (by norm_num) (by omega)
        rw [← hK] at hpow
        rcases hK2 with hK2 | hK2 <;> omega
      exact Dvd.dvd.mul_left (Nat.pow_dvd_pow 2 hk) current
    · omega

/-! ## The eviction pass -/

namespace ResourceCache

theorem evictLoop_limit (items : List (String × Nat)) (c : ResourceCache) :
    (evictLoop items c).1.m_cacheSizeLimit = c.m_cacheSizeLimit := by
  induction items generalizing c with
  | nil => simp [evictLoop]
  | cons item rest ih =>
    by_cases hat : atTarget c.m_currentCacheSize c.m_cacheSizeLimit
    · simp [evictLoop, hat]
    · cases hf : mapFind c.m_cache item.1 with
      | none => simp [evictLoop, hat, hf, ih]
      | some it => simp [evictLoop, hat, hf, ih]

theorem evictLoop_removals_above (items : List (String × Nat)) (c : ResourceCache) :
    ∀ r ∈ (evictLoop items c).2, ¬ atTarget r.sizeBefore c.m_cacheSizeLimit := by
  induction items generalizing c with
  | nil => simp [evictLoop]
  | cons item rest ih =>
    by_cases hat : atTarget c.m_currentCacheSize c.m_cacheSizeLimit
    · simp [evictLoop, hat]
    · cases hf : mapFind c.m_cache item.1 with
      | none =>
        simp only [evictLoop, hat, hf, if_false]
        exact ih c
      | some it =>
        simp only [evictLoop, hat, hf, if_false, List.mem_cons]
        intro r hr
        rcases hr with hr | hr
        · subst hr; exact hat
        · exact ih { c with m_currentCacheSize := wrapSub c.m_currentCacheSize it.size,
                            m_cache := mapErase c.m_cache item.1 } r hr

theorem evictLoop_ends (items : List (String × Nat)) (c : ResourceCache)
    (h : (items.map Prod.fst).Perm (mapKeys c.m_cache)) :
    atTarget (evictLoop items c).1.m_currentCacheSize (evictLoop items c).1.m_cacheSizeLimit
      ∨ (evictLoop items c).1.m_cache = [] := by
  induction items generalizing c with
  | nil =>
    right
    have h2 : mapKeys c.m_cache = [] := List.Perm.eq_nil (h.symm)
    simpa [evictLoop, mapKeys] using h2
  | cons item rest ih =>
    by_cases hat : atTarget c.m_currentCacheSize c.m_cacheSizeLimit
    · left; simp [evictLoop, hat]
    · have hmem : item.1 ∈ mapKeys c.m_cache := by
        apply h.subset; simp
      obtain ⟨it, hf⟩ := mapFind_isSome_of_mem_keys _ _ hmem
      simp only [evictLoop, hat, hf, if_false]
      apply ih
      simp only [mapKeys_mapErase]
      have h3 : (item.1 :: rest.map Prod.fst).Perm (mapKeys c.m_cache) := by simpa using h
      have h4 := h3.erase item.1
      simpa using h4

theorem evictItems_keys (c : ResourceCache) :
    (evictItems c).map Prod.fst = mapKeys c.m_cache := by
  simp [evictItems, mapKeys, List.map_map, Function.comp_def]

theorem sorted_items_keys_perm (c : ResourceCache) :
    ((List.insertionSort olderFirst (evictItems c)).map Prod.fst).Perm (mapKeys c.m_cache) := by
  rw [← evictItems_keys]
  exact (List.perm_insertionSort olderFirst (evictItems c)).map Prod.fst

theorem evictLoop_of_atTarget (items : List (String × Nat)) (c : ResourceCache)
    (h : atTarget c.m_currentCacheSize c.m_cacheSizeLimit) : evictLoop items c = (c, []) := by
  cases items with
  | nil => rfl
  | cons item rest => simp [evictLoop, h]

theorem evictResources_of_atTarget (c : ResourceCache)
    (h : atTarget c.m_currentCacheSize c.m_cacheSizeLimit) : evictResources c = (c, []) :=
  evictLoop_of_atTarget _ c h

theorem evictLoop_subset (items : List (String × Nat)) (c : ResourceCache)
    (e : String × CacheItem) (h : e ∈ (evictLoop items c).1.m_cache) : e ∈ c.m_cache := by
  induction items generalizing c with
  | nil => simpa [evictLoop] using h
  | cons item rest ih =>
    by_cases hat : atTarget c.m_currentCacheSize c.m_cacheSizeLimit
    · simpa [evictLoop, hat] using h
    · cases hf : mapFind c.m_cache item.1 with
      | none =>
        simp only [evictLoop, hat, hf, if_false] at h
        exact ih c h
      | some it =>
        simp only [evictLoop, hat, hf, if_false] at h
        exact mem_of_mem_mapErase _ _ _ (ih _ h)

theorem evictLoop_complete (items : List (String × Nat)) (c : ResourceCache) :
    ∀ e ∈ c.m_cache, e ∈ (evictLoop items c).1.m_cache
      ∨ ∃ r ∈ (evictLoop items c).2, r.item = e.2 := by
  induction items generalizing c with
  | nil => intro e he; left; simpa [evictLoop] using he
  | cons item rest ih =>
    intro e he
    by_cases hat : atTarget c.m_currentCacheSize c.m_cacheSizeLimit
    · left; simpa [evictLoop, hat] using he
    · cases hf : mapFind c.m_cache item.1 with
      | none =>
        simp only [evictLoop, hat, hf, if_false]
        exact ih c e he
      | some it =>
        simp only [evictLoop, hat, hf, if_false, List.mem_cons]
        rcases mem_mapErase_or_eq c.m_cache item.1 it e hf he with h | h
        · rcases ih { c with m_currentCacheSize := wrapSub c.m_currentCacheSize it.size,
                             m_cache := mapErase c.m_cache item.1 } e h with h2 | ⟨r, hr, hre⟩
          · left; exact h2
          · right; exact ⟨r, Or.inr hr, hre⟩
        · right
          exact ⟨_, Or.inl rfl, by rw [h]⟩

theorem evictLoop_lru (items : List (String × Nat)) (c : ResourceCache)
    (hs : items.Pairwise olderFirst) (hk : (items.map Prod.fst).Nodup)
    (hn : (mapKeys c.m_cache).Nodup)
    (hsub : ∀ e ∈ c.m_cache, (e.1, e.2.lastAccessed) ∈ items) :
    ∀ r ∈ (evictLoop items c).2, ∀ e ∈ (evictLoop items c).1.m_cache,
      r.item.lastAccessed ≤ e.2.lastAccessed := by
  induction items generalizing c with
  | nil => simp [evictLoop]
  | cons item rest ih =>
    obtain ⟨k, t⟩ := item
    have hs2 := List.pairwise_cons.mp hs
    have hk2 : k ∉ rest.map Prod.fst ∧ (rest.map Prod.fst).Nodup := by
      simpa using hk
    by_cases hat : atTarget c.m_currentCacheSize c.m_cacheSizeLimit
    · simp [evictLoop, hat]
    · cases hf : mapFind c.m_cache k with
      | none =>
        simp only [evictLoop, hat, hf, if_false]
        apply ih c hs2.2 hk2.2 hn
        intro e he
        have h1 := hsub e he
        rcases List.mem_cons.mp h1 with h2 | h2
        · exfalso
          have h3 : e.1 = k := congrArg Prod.fst h2
          have h4 : k ∈ mapKeys c.m_cache := h3 ▸ List.mem_map_of_mem Prod.fst he
          obtain ⟨v, hv⟩ := mapFind_isSome_of_mem_keys _ _ h4
          rw [hf] at hv; cases hv
        · exact h2
      | some it =>
        have hsub2 : ∀ e ∈ mapErase c.m_cache k, (e.1, e.2.lastAccessed) ∈ rest := by
          intro e he
          have h1 := hsub e (mem_of_mem_mapErase _ _ _ he)
          rcases List.mem_cons.mp h1 with h2 | h2
          · have h3 : e.1 = k := congrArg Prod.fst h2
            exact absurd h3 (key_ne_of_mem_mapErase c.m_cache k e hn he)
          · exact h2
        have hit : it.lastAccessed = t := by
          have h1 := hsub (k, it) (mapFind_some_mem _ _ _ hf)
          rcases List.mem_cons.mp h1 with h2 | h2
          · exact congrArg Prod.snd h2
          · exact absurd (List.mem_map_of_mem Prod.fst h2) hk2.1
        simp only [evictLoop, hat, hf, if_false, List.mem_cons]
        intro r hr e he
        rcases hr with hr | hr
        · subst hr
          have h1 := hsub2 e (evictLoop_subset _ _ e he)
          have h2 := hs2.1 _ h1
          simpa [hit, olderFirst] using h2
        · exact ih { c with m_currentCacheSize := wrapSub c.m_currentCacheSize it.size,
                            m_cache := mapErase c.m_cache k }
            hs2.2 hk2.2 (nodup_mapKeys_mapErase _ _ hn) hsub2 r hr e he

/-- C4: in an eviction pass (on a map, whose keys are distinct) every entry of the
cache either remains or is among the recorded removals, and every removed entry
has a last-accessed time no later than that of every entry that remains. -/
theorem evictResources_removes_oldest (c : ResourceCache)
    (hn : (mapKeys c.m_cache).Nodup) :
    (∀ e ∈ c.m_cache, e ∈ (evictResources c).1.m_cache
        ∨ ∃ r ∈ (evictResources c).2, r.item = e.2)
      ∧ ∀ r ∈ (evictResources c).2, ∀ e ∈ (evictResources c).1.m_cache,
          r.item.lastAccessed ≤ e.2.lastAccessed := by
  refine ⟨evictLoop_complete _ c, ?_⟩
  apply evictLoop_lru _ c (List.sorted_insertionSort olderFirst (evictItems c)) _ hn
  · intro e he
    apply (List.perm_insertionSort olderFirst (evictItems c)).mem_iff.mpr
    exact List.mem_map_of_mem (fun p : String × CacheItem => (p.1, p.2.lastAccessed)) he
  · exact (sorted_items_keys_perm c).nodup_iff.mpr hn

theorem evictResources_removes_oldest_witness :
    (mapKeys crowdedCache.m_cache).Nodup
      ∧ (evictResources crowdedCache).2.length = 2
      ∧ ∀ r ∈ (evictResources crowdedCache).2, ∀ e ∈ (evictResources crowdedCache).1.m_cache,
          r.item.lastAccessed ≤ e.2.lastAccessed :=
  ⟨by decide, by decide, (evictResources_removes_oldest crowdedCache (by decide)).2⟩

/-! ## Scenario A -/

/-- C2, as stated, fails: with three resources of size 400 inserted at times 1, 2
and 3, it is not the case that "a" is gone and "c" is cached at the end. -/
theorem scenarioA_counterexample :
    ¬ (mapFind (scenarioA (sampleResource 1 400) (sampleResource 2 400)
            (sampleResource 3 400) 1 2 3).m_cache "a" = none
        ∧ (mapFind (scenarioA (sampleResource 1 400) (sampleResource 2 400)
            (sampleResource 3 400) 1 2 3).m_cache "c").isSome = true) := by
  decide

/-- C2, amended: in Scenario A the eviction pass triggered by inserting "c" removes
nothing (the current size 800 is already at 80% of 1000), "c" is refused, and the
cache ends holding exactly a (400) and b (400) with current size 800. -/
theorem scenarioA_refuses_c (ra rb rc : Resource) (ta tb tc now : Nat)
    (ha : ra.getSize = 400) (hb : rb.getSize = 400) (hc : rc.getSize = 400) :
    (evictResources (run [(ta, .cacheResource "a" ra), (tb, .cacheResource "b" rb)]
        (emptyWithLimit 1000))).2 = []
      ∧ (scenarioA ra rb rc ta tb tc).m_cache =
          [("a", { key := "a", resource := ra, size := 400, lastAccessed := ta }),
           ("b", { key := "b", resource := rb, size := 400, lastAccessed := tb })]
      ∧ (scenarioA ra rb rc ta tb tc).getCacheSize = 800
      ∧ ((scenarioA ra rb rc ta tb tc).getCachedResource "c" now).1 = none := by
  have h2 : run [(ta, .cacheResource "a" ra), (tb, .cacheResource "b" rb)] (emptyWithLimit 1000)
      = { m_cache :=
            [("a", { key := "a", resource := ra, size := 400, lastAccessed := ta }),
             ("b", { key := "b", resource := rb, size := 400, lastAccessed := tb })],
          m_cacheSizeLimit := 1000, m_currentCacheSize := 800 } := by
    simp [run, step, cacheResource, emptyWithLimit, mapFind, mapAssign, ha, hb, wrapAdd]
  have he := evictResources_of_atTarget
    { m_cache :=
        [("a", { key := "a", resource := ra, size := 400, lastAccessed := ta }),
         ("b", { key := "b", resource := rb, size := 400, lastAccessed := tb })],
      m_cacheSizeLimit := 1000, m_currentCacheSize := 800 }
    (show atTarget 800 1000 by decide)
  have h3 : scenarioA ra rb rc ta tb tc
      = { m_cache :=
            [("a", { key := "a", resource := ra, size := 400, lastAccessed := ta }),
             ("b", { key := "b", resource := rb, size := 400, lastAccessed := tb })],
          m_cacheSizeLimit := 1000, m_currentCacheSize := 800 } := by
    have h4 : scenarioA ra rb rc ta tb tc
        = (run [(ta, .cacheResource "a" ra), (tb, .cacheResource "b" rb)]
            (emptyWithLimit 1000)).cacheResource "c" rc tc := by
      simp [scenarioA, run, step]
    rw [h4, h2]
    simp [cacheResource, mapFind, hc, he, wrapAdd]
  rw [h2, h3, he]
  simp [getCacheSize, getCachedResource, mapFind]

theorem scenarioA_refuses_c_witness :
    (sampleResource 1 400).getSize = 400
      ∧ (scenarioA (sampleResource 1 400) (sampleResource 2 400) (sampleResource 3 400)
          1 2 3).getCacheSize = 800
      ∧ ((scenarioA (sampleResource 1 400) (sampleResource 2 400) (sampleResource 3 400)
          1 2 3).getCachedResource "c" 4).1 = none :=
  ⟨rfl,
    (scenarioA_refuses_c (sampleResource 1 400) (sampleResource 2 400) (sampleResource 3 400)
      1 2 3 4 rfl rfl rfl).2.2⟩

/-! ## The limit as a bound -/

/-- C5, evaluated: after the limit is set to 1000 and key "a" is cached with 400
bytes, caching "a" again with a resource of 5000 bytes leaves the cache size at
5000, above the limit 1000. -/
theorem refresh_exceeds_limit :
    (run refreshOps ResourceCache.new).getCacheSize = 5000
      ∧ (run refreshOps ResourceCache.new).getCacheLimit = 1000
      ∧ ¬ (run refreshOps ResourceCache.new).getCacheSize
            ≤ (run refreshOps ResourceCache.new).getCacheLimit := by
  decide

/-! ## Size accounting of the cache -/

theorem evictResources_find_none (c : ResourceCache) (key : String)
    (hk : mapFind c.m_cache key = none) : mapFind (evictResources c).1.m_cache key = none := by
  cases hk2 : mapFind (evictResources c).1.m_cache key with
  | none => rfl
  | some v =>
    have h2 := evictLoop_subset _ c _ (mapFind_some_mem _ _ _ hk2)
    have h3 : key ∈ mapKeys c.m_cache := List.mem_map_of_mem Prod.fst h2
    obtain ⟨w, hw⟩ := mapFind_isSome_of_mem_keys _ _ h3
    rw [hk] at hw; cases hw

end ResourceCache

/-! ## ResourceManager: synchronous loads -/

namespace ResourceManager

/-- C1, evaluated: after two asynchronous requests for the same path have been
queued and handled by the worker, the map holds one 100-byte resource while
`getTotalMemoryUsage()` reports 200. -/
theorem double_request_breaks_accounting :
    (run doubleRequestOps ResourceManager.new).getLoadedResourceCount = 1
      ∧ (run doubleRequestOps ResourceManager.new).resourceSizeSum = 100
      ∧ (run doubleRequestOps ResourceManager.new).getTotalMemoryUsage = 200 := by
  decide

/-- C8: for a path that is not loaded, when no loader is registered for the type,
or the loader produces nothing, or the produced resource fails in `load()`,
`loadResource` returns no resource and leaves the resources map, the resource
count and the memory total as they were. -/
theorem loadResource_failure (s : ResourceManager) (P : String) (T : ResourceType)
    (hP : mapFind s.m_resources P = none)
    (hfail : s.findLoader T = none
      ∨ ∃ loader, s.findLoader T = some loader
          ∧ (loader.load P T = none
              ∨ ∃ r0, loader.load P T = some r0 ∧ r0.load.1 = false)) :
    (s.loadResource P T).1 = none
      ∧ (s.loadResource P T).2.m_resources = s.m_resources
      ∧ (s.loadResource P T).2.getLoadedResourceCount = s.getLoadedResourceCount
      ∧ (s.loadResource P T).2.getTotalMemoryUsage = s.getTotalMemoryUsage := by
  rcases hfail with h | ⟨loader, hl, h | ⟨r0, hr, hf⟩⟩
  · simp [loadResource, hP, h]
  · simp [loadResource, hP, hl, callLoader, h, emit, getLoadedResourceCount,
      getTotalMemoryUsage]
  · have hf2 : r0.loadResult = false := hf
    simp [loadResource, hP, hl, callLoader, hr, emit, Resource.load, hf2,
      getLoadedResourceCount, getTotalMemoryUsage]

theorem loadResource_failure_witness :
    mapFind failingManager.m_resources "foo.png" = none
      ∧ (failingManager.loadResource "foo.png" ResourceType.TEXTURE).1 = none
      ∧ (failingManager.loadResource "foo.png" ResourceType.TEXTURE).2.getLoadedResourceCount
          = 0 := by
  have h := loadResource_failure failingManager "foo.png" ResourceType.TEXTURE (by decide)
    (Or.inr ⟨failingLoader, rfl, Or.inr ⟨_, rfl, rfl⟩⟩)
  exact ⟨by decide, h.1, h.2.2.1⟩

theorem loadResource_of_loaded (s : ResourceManager) (P : String) (T : ResourceType)
    (r : Resource) (h : s.getResource P = some r) : s.loadResource P T = (some r, s) := by
  have h2 : mapFind s.m_resources P = some r := h
  simp [loadResource, h2]

theorem loadResource_returns_mapped (s : ResourceManager) (P : String) (T : ResourceType)
    (r : Resource) (h : (s.loadResource P T).1 = some r) :
    (s.loadResource P T).2.getResource P = some r := by
  unfold loadResource at h ⊢
  cases hP : mapFind s.m_resources P with
  | some r1 =>
    simp only [hP] at h ⊢
    simpa [getResource, hP] using h
  | none =>
    simp only [hP] at h ⊢
    cases hl : s.findLoader T with
    | none => simp [hl] at h
    | some loader =>
      simp only [hl] at h ⊢
      cases hr : loader.load P T with
      | none => simp [callLoader, hr] at h
      | some r0 =>
        simp only [callLoader, hr] at h ⊢
        by_cases hok : r0.loadResult = true
        · simp only [Resource.load, hok, if_true] at h ⊢
          simp only [Option.some.injEq] at h
          simp [getResource, emit, mapFind_mapAssign_self, h]
        · simp [Resource.load, hok] at h

/-- C9, evaluated: with an asynchronous request for "a" queued before the worker
runs, `loadResource("a", TEXTURE)` returns the instance with identity 0; "a" is
never unloaded, yet once the worker has handled the queued request
`getResource("a")` returns another instance (identity 1), and a loader was
invoked to produce it. -/
theorem queued_request_replaces_instance :
    ((queuedManager.loadResource "a" ResourceType.TEXTURE).1.map fun r => r.id) = some 0
      ∧ ((queuedManager.loadResource "a" ResourceType.TEXTURE).2.getResource "a"
          = (queuedManager.loadResource "a" ResourceType.TEXTURE).1)
      ∧ (((run [.init, .workerTurn]
            (queuedManager.loadResource "a" ResourceType.TEXTURE).2).getResource "a").map
          fun r => r.id) = some 1
      ∧ (run [.init, .workerTurn]
            (queuedManager.loadResource "a" ResourceType.TEXTURE).2).getResource "a"
          ≠ (queuedManager.loadResource "a" ResourceType.TEXTURE).1
      ∧ Event.resourceUnload 0 ∉
          (run [.init, .workerTurn]
            (queuedManager.loadResource "a" ResourceType.TEXTURE).2).trace
      ∧ (run [.init, .workerTurn]
            (queuedManager.loadResource "a" ResourceType.TEXTURE).2).trace.count
          (Event.loaderLoad "a" ResourceType.TEXTURE) = 2 := by
  decide

end ResourceManager

/-! ## More facts about the association lists -/

section MapLemmasMore

variable {α β : Type} [DecidableEq α]

theorem mapFind_isSome_mapAssign (m : List (α × β)) (k q : α) (v : β)
    (h : (mapFind m q).isSome = true) : (mapFind (mapAssign m k v) q).isSome = true := by
  by_cases hq : q = k
  · subst hq; simp [mapFind_mapAssign_self]
  · rw [mapFind_mapAssign_ne m k q v hq]; exact h

end MapLemmasMore

/-! ## Reachable manager states are consistent -/

namespace ResourceManager

end ResourceManager

/-! ## Touching a cache entry -/

namespace ResourceCache

end ResourceCache

/-! ## The worker and the pending list -/

theorem callbackIds_append (a b : List Event) :
    callbackIds (a ++ b) = callbackIds a ++ callbackIds b := by
  induction a with
  | nil => rfl
  | cons e rest ih => cases e <;> simp [callbackIds, ih]

namespace ResourceManager

theorem requestCallback_effect (s : ResourceManager) (cb : Nat) (res : Option Resource) :
    callbackIds (requestCallback s cb res).trace = callbackIds s.trace ++ [cb]
      ∧ (requestCallback s cb res).m_loadRequests = s.m_loadRequests
      ∧ (requestCallback s cb res).m_running = s.m_running := by
  unfold requestCallback
  cases res with
  | none => simp [emit, callbackIds_append, callbackIds]
  | some r =>
    by_cases hst : r.getStatus = ResourceStatus.LOADED
    · simp [hst, callbackIds_append, callbackIds]
    · simp [hst, emit, callbackIds_append, callbackIds]

theorem processRequest_effect (s : ResourceManager) (req : ResourceLoadRequest) :
    callbackIds (s.processRequest req).trace = callbackIds s.trace ++ [req.callback]
      ∧ (s.processRequest req).m_loadRequests = s.m_loadRequests
      ∧ (s.processRequest req).m_running = s.m_running := by
  unfold processRequest
  cases hl : s.findLoader req.type with
  | none => exact requestCallback_effect s _ _
  | some loader =>
    cases hr : loader.load req.path req.type with
    | none =>
      simp only [callLoader, hr]
      have h := requestCallback_effect (s.emit (.loaderLoad req.path req.type)) req.callback none
      simpa [emit, callbackIds_append, callbackIds] using h
    | some r0 =>
      simp only [callLoader, hr]
      have h := requestCallback_effect
        (({ s with nextId := s.nextId + 1,
                   trace := s.trace ++ [.loaderLoad req.path req.type] } : ResourceManager).emit
          (.resourceLoad s.nextId)) req.callback
        (some (Resource.load { r0 with id := s.nextId }).2)
      simpa [emit, callbackIds_append, callbackIds] using h

theorem foldl_processRequest_effect (reqs : List ResourceLoadRequest) (s : ResourceManager) :
    callbackIds (reqs.foldl processRequest s).trace
        = callbackIds s.trace ++ reqs.map (fun r => r.callback)
      ∧ (reqs.foldl processRequest s).m_loadRequests = s.m_loadRequests
      ∧ (reqs.foldl processRequest s).m_running = s.m_running := by
  induction reqs generalizing s with
  | nil => simp
  | cons req rest ih =>
    obtain ⟨h1, h2, h3⟩ := ih (s.processRequest req)
    obtain ⟨g1, g2, g3⟩ := processRequest_effect s req
    simp only [List.foldl_cons, List.map_cons]
    rw [h1, h2, h3, g1, g2, g3]
    simp

theorem workerTurn_running (s : ResourceManager) (hrun : s.m_running = true) :
    callbackIds s.workerTurn.trace
        = callbackIds s.trace ++ s.m_loadRequests.map (fun r => r.callback)
      ∧ s.workerTurn.m_loadRequests = []
      ∧ s.workerTurn.m_running = true := by
  have hnf : ¬ s.m_running = false := by simp [hrun]
  unfold workerTurn
  rw [if_neg hnf]
  cases hq : s.m_loadRequests with
  | nil => simp [hq, hrun]
  | cons req rest =>
    obtain ⟨h1, h2, h3⟩ :=
      foldl_processRequest_effect (req :: rest) { s with m_loadRequests := [] }
    exact ⟨h1, h2, h3.trans hrun⟩

/-- C13: for every script of `loadResourceAsync` calls on paths that are not
loaded, interleaved with any number of turns of a running worker, the callbacks
invoked so far followed by the callbacks still pending are exactly the callbacks
in enqueue order; after one more worker turn nothing is pending and each callback
has been invoked exactly once, in enqueue order. -/
theorem worker_fifo (s : ResourceManager) (ops : List ManagerOp)
    (hrun : s.m_running = true) (h : asyncScript s ops) :
    callbackIds (run ops s).trace ++ (run ops s).m_loadRequests.map (fun r => r.callback)
        = callbackIds s.trace ++ s.m_loadRequests.map (fun r => r.callback)
            ++ enqueuedCallbacks ops
      ∧ (run (ops ++ [.workerTurn]) s).m_loadRequests = []
      ∧ callbackIds (run (ops ++ [.workerTurn]) s).trace
          = callbackIds s.trace ++ s.m_loadRequests.map (fun r => r.callback)
              ++ enqueuedCallbacks ops := by
  have key : ∀ (l : List ManagerOp) (t : ResourceManager), t.m_running = true →
      asyncScript t l →
      (run l t).m_running = true
        ∧ callbackIds (run l t).trace ++ (run l t).m_loadRequests.map (fun r => r.callback)
          = callbackIds t.trace ++ t.m_loadRequests.map (fun r => r.callback)
              ++ enqueuedCallbacks l := by
    intro l
    induction l with
    | nil => intro t ht _; simp [run, enqueuedCallbacks, ht]
    | cons op rest ih =>
      intro t ht hs
      cases op with
      | loadResourceAsync path type cb =>
        obtain ⟨hnone, hrest⟩ := hs
        have hstep : t.loadResourceAsync path type cb
            = { t with m_loadRequests :=
                  t.m_loadRequests ++ [{ path := path, type := type, callback := cb }] } := by
          simp [loadResourceAsync, hnone]
        obtain ⟨h1, h2⟩ := ih (t.loadResourceAsync path type cb) (by rw [hstep]; exact ht) hrest
        refine ⟨h1, ?_⟩
        have h3 : run (ManagerOp.loadResourceAsync path type cb :: rest) t
            = run rest (t.loadResourceAsync path type cb) := rfl
        rw [h3, h2, hstep]
        simp [enqueuedCallbacks]
      | workerTurn =>
        obtain ⟨g1, g2, g3⟩ := workerTurn_running t ht
        obtain ⟨h1, h2⟩ := ih t.workerTurn g3 hs
        refine ⟨h1, ?_⟩
        have h3 : run (ManagerOp.workerTurn :: rest) t = run rest t.workerTurn := rfl
        rw [h3, h2, g1, g2]
        simp [enqueuedCallbacks]
      | init => exact absurd hs (by simp [asyncScript])
      | setLoader type loader => exact absurd hs (by simp [asyncScript])
      | loadResource path type => exact absurd hs (by simp [asyncScript])
      | preloadResources resources => exact absurd hs (by simp [asyncScript])
      | unloadResource path => exact absurd hs (by simp [asyncScript])
      | unloadAllResources => exact absurd hs (by simp [asyncScript])
      | getResource path => exact absurd hs (by simp [asyncScript])
  obtain ⟨k1, k2⟩ := key ops s hrun h
  have hlast : run (ops ++ [ManagerOp.workerTurn]) s = (run ops s).workerTurn := by
    simp [run, step]
  obtain ⟨g1, g2, -⟩ := workerTurn_running (run ops s) k1
  refine ⟨k2, ?_, ?_⟩
  · rw [hlast]; exact g2
  · rw [hlast, g1, k2]

theorem worker_fifo_witness :
    runningManager.m_running = true
      ∧ asyncScript runningManager twoBatchScript
      ∧ callbackIds (run (twoBatchScript ++ [.workerTurn]) runningManager).trace = [1, 2, 3] := by
  have hs : asyncScript runningManager twoBatchScript := by
    simp [asyncScript, twoBatchScript]
    decide
  have h := worker_fifo runningManager twoBatchScript rfl hs
  exact ⟨rfl, hs, h.2.2⟩

/-! ## Shutdown with requests pending -/

/-- C14: a worker that finds `m_running` false exits without touching the manager,
so no pending callback is invoked and the pending list stays as it is; `cleanup()`
invokes no callback and leaves the pending list as it is, and after it the worker
exits in the same way. -/
theorem shutdown_drops_pending (s : ResourceManager) :
    (s.m_running = false → s.workerTurn = s)
      ∧ s.cleanup.m_loadRequests = s.m_loadRequests
      ∧ callbackIds s.cleanup.trace = callbackIds s.trace
      ∧ s.cleanup.m_running = false
      ∧ s.cleanup.workerTurn = s.cleanup := by
  have hturn : ∀ t : ResourceManager, t.m_running = false → t.workerTurn = t := by
    intro t ht
    simp [workerTurn, ht]
  have hunload : ∀ l : List (String × Resource),
      callbackIds (l.map fun p => Event.resourceUnload p.2.id) = [] := by
    intro l
    induction l with
    | nil => rfl
    | cons e rest ih => simpa [callbackIds] using ih
  have hrun : s.cleanup.m_running = false := by
    cases h : s.m_running <;> simp [cleanup, unloadAllResources, h]
  refine ⟨hturn s, ?_, ?_, hrun, hturn _ hrun⟩
  · cases h : s.m_running <;> simp [cleanup, unloadAllResources, h]
  · cases h : s.m_running <;>
      simp [cleanup, unloadAllResources, h, callbackIds_append, callbackIds, hunload]

theorem shutdown_drops_pending_witness :
    queuedManager.m_running = false
      ∧ queuedManager.workerTurn.m_loadRequests
          = [{ path := "a", type := ResourceType.TEXTURE, callback := 1 }]
      ∧ queuedManager.cleanup.m_loadRequests
          = [{ path := "a", type := ResourceType.TEXTURE, callback := 1 }]
      ∧ callbackIds queuedManager.cleanup.trace = [] := by
  have h := shutdown_drops_pending queuedManager
  refine ⟨rfl, ?_, ?_, ?_⟩
  · rw [h.1 rfl]; decide
  · rw [h.2.1]; decide
  · rw [h.2.2.1]; decide

/-! ## Queueing an asynchronous request -/

/-- C15: for a path that is not mapped, `loadResourceAsync` appends exactly one
request for (P, T) at the end of the pending list and changes nothing else; for a
mapped path the callback is invoked with the mapped resource, no loader is called
and nothing else changes. -/
theorem loadResourceAsync_spec (s : ResourceManager) (P : String) (T : ResourceType)
    (cb : Nat) :
    (s.getResource P = none →
        s.loadResourceAsync P T cb
          = { s with m_loadRequests :=
                s.m_loadRequests ++ [{ path := P, type := T, callback := cb }] })
      ∧ ∀ r, s.getResource P = some r →
          s.loadResourceAsync P T cb
            = { s with trace := s.trace ++ [Event.callback cb (some r)] } := by
  refine ⟨?_, ?_⟩
  · intro h
    have h2 : mapFind s.m_resources P = none := h
    simp [loadResourceAsync, h2]
  · intro r h
    have h2 : mapFind s.m_resources P = some r := h
    simp [loadResourceAsync, h2, emit]

theorem loadResourceAsync_spec_witness :
    textureManager.getResource "a" = none
      ∧ (textureManager.loadResourceAsync "a" ResourceType.TEXTURE 7).m_loadRequests
          = [{ path := "a", type := ResourceType.TEXTURE, callback := 7 }]
      ∧ (loadedManager.getResource "a").isSome = true
      ∧ callbackIds (loadedManager.loadResourceAsync "a" ResourceType.TEXTURE 7).trace = [7]
      ∧ (loadedManager.loadResourceAsync "a" ResourceType.TEXTURE 7).m_loadRequests = [] := by
  have h1 := (loadResourceAsync_spec textureManager "a" ResourceType.TEXTURE 7).1 (by decide)
  have h2 := (loadResourceAsync_spec loadedManager "a" ResourceType.TEXTURE 7).2
    { id := 0, m_name := "a", m_path := "a", m_type := ResourceType.TEXTURE,
      m_status := ResourceStatus.LOADED, size := 100, loadResult := true,
      loadStatus := ResourceStatus.LOADED } (by decide)
  refine ⟨by decide, ?_, by decide, ?_, ?_⟩
  · rw [h1]; decide
  · rw [h2]; decide
  · rw [h2]; decide

/-! ## A failing asynchronous request -/

/-- C16, evaluated: the texture loader of `inconsistentManager` produces a
resource whose `load()` returns false (and leaves the status `LOADED`); the worker
drops that return value, and the request lambda, which looks at the status only,
adds the resource to the map, raises the memory total and hands the resource to
the callback. -/
theorem processRequest_failed_load_counterexample :
    (∃ r0, inconsistentLoader.load "a" ResourceType.TEXTURE = some r0 ∧ r0.load.1 = false)
      ∧ ¬ ((inconsistentManager.processRequest
              { path := "a", type := ResourceType.TEXTURE, callback := 7 }).m_resources
            = inconsistentManager.m_resources
          ∧ (inconsistentManager.processRequest
              { path := "a", type := ResourceType.TEXTURE, callback := 7 }).getTotalMemoryUsage
            = inconsistentManager.getTotalMemoryUsage
          ∧ (inconsistentManager.processRequest
              { path := "a", type := ResourceType.TEXTURE, callback := 7 }).trace.getLast?
            = some (Event.callback 7 none)) := by
  refine ⟨⟨_, rfl, rfl⟩, ?_⟩
  decide

/-! ## Preloading a batch -/

theorem loadResource_loaders (s : ResourceManager) (P : String) (T : ResourceType) :
    (s.loadResource P T).2.m_loaders = s.m_loaders := by
  unfold loadResource
  cases hP : mapFind s.m_resources P with
  | some r => rfl
  | none =>
    cases hl : s.findLoader T with
    | none => rfl
    | some loader =>
      cases hr : loader.load P T with
      | none => simp [callLoader, hr, emit]
      | some r0 =>
        by_cases hok : r0.loadResult = true
        · simp [callLoader, hr, emit, Resource.load, hok]
        · simp [callLoader, hr, emit, Resource.load, hok]

theorem loadResource_keeps (s : ResourceManager) (P Q : String) (T : ResourceType)
    (h : (s.getResource Q).isSome = true) :
    ((s.loadResource P T).2.getResource Q).isSome = true := by
  unfold loadResource
  cases hP : mapFind s.m_resources P with
  | some r => exact h
  | none =>
    cases hl : s.findLoader T with
    | none => exact h
    | some loader =>
      cases hr : loader.load P T with
      | none => simpa [callLoader, hr, emit, getResource] using h
      | some r0 =>
        by_cases hok : r0.loadResult = true
        · simp only [callLoader, hr, emit, Resource.load, hok, if_true, getResource]
          exact mapFind_isSome_mapAssign _ _ _ _ h
        · simpa [callLoader, hr, emit, Resource.load, hok, getResource] using h

theorem loadResource_loads (s : ResourceManager) (P : String) (T : ResourceType)
    (loader : ResourceLoader) (r0 : Resource) (hl : s.findLoader T = some loader)
    (hr : loader.load P T = some r0) (hok : r0.load.1 = true) :
    ((s.loadResource P T).2.getResource P).isSome = true := by
  have hok2 : r0.loadResult = true := hok
  unfold loadResource
  cases hP : mapFind s.m_resources P with
  | some r => simp [getResource, hP]
  | none =>
    simp [hl, callLoader, hr, emit, Resource.load, hok2, getResource, mapFind_mapAssign_self]

theorem preloadResources_cons (s : ResourceManager) (pair : String × ResourceType)
    (rest : List (String × ResourceType)) :
    s.preloadResources (pair :: rest)
      = (s.loadResource pair.1 pair.2).2.preloadResources rest := rfl

theorem preloadResources_loaders (l : List (String × ResourceType)) (s : ResourceManager) :
    (s.preloadResources l).m_loaders = s.m_loaders := by
  induction l generalizing s with
  | nil => rfl
  | cons pair rest ih =>
    rw [preloadResources_cons, ih, loadResource_loaders]

theorem preloadResources_keeps (l : List (String × ResourceType)) (s : ResourceManager)
    (Q : String) (h : (s.getResource Q).isSome = true) :
    ((s.preloadResources l).getResource Q).isSome = true := by
  induction l generalizing s with
  | nil => exact h
  | cons pair rest ih =>
    rw [preloadResources_cons]
    exact ih _ (loadResource_keeps s pair.1 Q pair.2 h)

theorem preloadResources_append (l1 l2 : List (String × ResourceType)) (s : ResourceManager) :
    s.preloadResources (l1 ++ l2) = (s.preloadResources l1).preloadResources l2 := by
  simp [preloadResources, List.foldl_append]

/-- C17: `preloadResources` leaves the manager in the state reached by calling
`loadResource` on each pair in list order, and every pair of the list for which
the registered loader produces a resource whose `load()` succeeds is in the
resources map afterwards, whatever happened to the pairs before it. -/
theorem preloadResources_spec (s : ResourceManager) (l : List (String × ResourceType)) :
    s.preloadResources l = run (l.map fun p => ManagerOp.loadResource p.1 p.2) s
      ∧ ∀ (pre post : List (String × ResourceType)) (P : String) (T : ResourceType)
          (loader : ResourceLoader) (r0 : Resource),
          l = pre ++ (P, T) :: post → s.findLoader T = some loader →
          loader.load P T = some r0 → r0.load.1 = true →
          (s.preloadResources l).isResourceLoaded P = true := by
  refine ⟨?_, ?_⟩
  · simp [preloadResources, run, List.foldl_map, step]
  · intro pre post P T loader r0 hl hfind hload hok
    rw [hl, preloadResources_append, preloadResources_cons]
    have hfind2 : (s.preloadResources pre).findLoader T = some loader := by
      unfold findLoader at hfind ⊢
      rw [preloadResources_loaders]; exact hfind
    have h1 := loadResource_loads (s.preloadResources pre) P T loader r0 hfind2 hload hok
    exact preloadResources_keeps post _ P h1

theorem preloadResources_spec_witness :
    textureManager.findLoader ResourceType.SOUND = none
      ∧ ((textureManager.loadResource "x.wav" ResourceType.SOUND).1 = none)
      ∧ (textureManager.preloadResources mixedBatch).isResourceLoaded "a" = true := by
  refine ⟨rfl, by decide, ?_⟩
  exact (preloadResources_spec textureManager mixedBatch).2
    [("x.wav", ResourceType.SOUND)] [] "a" ResourceType.TEXTURE textureLoader _ rfl rfl rfl rfl

/-! ## Starting the worker -/

/-- C18: `init()` returns true in every state; on a manager that is already
running it changes nothing (no second worker is started); and a second `init()`
right after a first one changes nothing. -/
theorem init_idempotent (s : ResourceManager) :
    s.init.1 = true
      ∧ (s.m_running = true → s.init = (true, s))
      ∧ s.init.2.m_running = true
      ∧ s.init.2.init = (true, s.init.2) := by
  cases h : s.m_running <;> simp [init, h]

theorem init_idempotent_witness :
    runningManager.m_running = true
      ∧ runningManager.init = (true, runningManager)
      ∧ runningManager.init.2.trace.count Event.threadStart = 1 := by
  have h := (init_idempotent runningManager).2.1 rfl
  refine ⟨rfl, h, ?_⟩
  rw [h]; decide

/-! ## Cleanup -/

theorem loadResource_unequipped (t : ResourceManager) (P : String) (T : ResourceType)
    (hl : t.m_loaders = []) (hr : t.m_resources = []) : t.loadResource P T = (none, t) := by
  simp [loadResource, findLoader, hl, hr, mapFind]

theorem preloadResources_unequipped (l : List (String × ResourceType)) (t : ResourceManager)
    (hl : t.m_loaders = []) (hr : t.m_resources = []) : t.preloadResources l = t := by
  induction l with
  | nil => rfl
  | cons pair rest ih =>
    rw [preloadResources_cons, loadResource_unequipped t pair.1 pair.2 hl hr]
    exact ih

theorem processRequest_unequipped (t : ResourceManager) (req : ResourceLoadRequest)
    (hl : t.m_loaders = []) (hr : t.m_resources = []) :
    (t.processRequest req).m_loaders = [] ∧ (t.processRequest req).m_resources = [] := by
  simp [processRequest, findLoader, hl, hr, mapFind, requestCallback, emit]

theorem foldl_processRequest_unequipped (reqs : List ResourceLoadRequest) (t : ResourceManager)
    (hl : t.m_loaders = []) (hr : t.m_resources = []) :
    (reqs.foldl processRequest t).m_loaders = []
      ∧ (reqs.foldl processRequest t).m_resources = [] := by
  induction reqs generalizing t with
  | nil => exact ⟨hl, hr⟩
  | cons req rest ih =>
    obtain ⟨h1, h2⟩ := processRequest_unequipped t req hl hr
    exact ih _ h1 h2

theorem step_unequipped (t : ResourceManager) (op : ManagerOp) (hop : isSetLoader op = false)
    (hl : t.m_loaders = []) (hr : t.m_resources = []) :
    (t.step op).m_loaders = [] ∧ (t.step op).m_resources = [] := by
  cases op with
  | setLoader type loader => simp [isSetLoader] at hop
  | init =>
    cases h : t.m_running <;> simp [step, init, h, hl, hr]
  | loadResource path type =>
    simp [step, loadResource_unequipped t path type hl hr, hl, hr]
  | preloadResources resources =>
    simp [step, preloadResources_unequipped resources t hl hr, hl, hr]
  | loadResourceAsync path type callback =>
    simp [step, loadResourceAsync, hr, mapFind, hl]
  | workerTurn =>
    simp only [step, workerTurn]
    by_cases hrun : t.m_running = false
    · simp [hrun, hl, hr]
    · rw [if_neg hrun]
      cases hq : t.m_loadRequests with
      | nil => exact ⟨hl, hr⟩
      | cons req rest =>
        exact foldl_processRequest_unequipped (req :: rest) { t with m_loadRequests := [] } hl hr
  | unloadResource path => simp [step, unloadResource, hr, mapFind, hl]
  | unloadAllResources => simp [step, unloadAllResources, hl]
  | getResource path => exact ⟨hl, hr⟩

theorem run_unequipped (ops : List ManagerOp) (t : ResourceManager)
    (hops : ∀ op ∈ ops, isSetLoader op = false)
    (hl : t.m_loaders = []) (hr : t.m_resources = []) :
    (run ops t).m_loaders = [] ∧ (run ops t).m_resources = [] := by
  induction ops generalizing t with
  | nil => exact ⟨hl, hr⟩
  | cons op rest ih =>
    obtain ⟨h1, h2⟩ := step_unequipped t op (hops op (by simp)) hl hr
    exact ih (t.step op) (fun o ho => hops o (List.mem_cons_of_mem _ ho)) h1 h2

/-- C19: after `cleanup()` the worker is not running, `unload()` has been called
on every resource that was in the map, the resource count and the memory total
are 0 and no loader is registered; `loadResource` then returns no resource for
every path and type, and keeps doing so through any operations other than
`setLoader`. -/
theorem cleanup_spec (s : ResourceManager) :
    s.cleanup.m_running = false
      ∧ (∀ e ∈ s.m_resources, Event.resourceUnload e.2.id ∈ s.cleanup.trace)
      ∧ s.cleanup.getLoadedResourceCount = 0
      ∧ s.cleanup.getTotalMemoryUsage = 0
      ∧ s.cleanup.m_loaders = []
      ∧ (∀ P T, s.cleanup.loadResource P T = (none, s.cleanup))
      ∧ ∀ ops : List ManagerOp, (∀ op ∈ ops, isSetLoader op = false) →
          ∀ P T, ((run ops s.cleanup).loadResource P T).1 = none := by
  have hl : s.cleanup.m_loaders = [] := by simp [cleanup]
  have hr : s.cleanup.m_resources = [] := by simp [cleanup, unloadAllResources]
  refine ⟨?_, ?_, ?_, ?_, hl, ?_, ?_⟩
  · cases h : s.m_running <;> simp [cleanup, unloadAllResources, h]
  · intro e he
    have hmem : Event.resourceUnload e.2.id
        ∈ s.m_resources.map (fun p => Event.resourceUnload p.2.id) :=
      List.mem_map_of_mem (fun p : String × Resource => Event.resourceUnload p.2.id) he
    cases h : s.m_running <;> simp [cleanup, unloadAllResources, h]
    · exact Or.inr ⟨e.1, e.2, he, rfl⟩
    · exact Or.inr ⟨e.1, e.2, he, rfl⟩
  · simp [getLoadedResourceCount, hr]
  · simp [getTotalMemoryUsage, cleanup, unloadAllResources]
  · intro P T
    exact loadResource_unequipped _ P T hl hr
  · intro ops hops P T
    obtain ⟨h1, h2⟩ := run_unequipped ops s.cleanup hops hl hr
    rw [loadResource_unequipped _ P T h1 h2]

theorem cleanup_spec_witness :
    (∀ op ∈ [ManagerOp.init, ManagerOp.loadResourceAsync "a" ResourceType.TEXTURE 1,
        ManagerOp.workerTurn], isSetLoader op = false)
      ∧ Event.resourceUnload 0 ∈ loadedManager.cleanup.trace
      ∧ ((run [ManagerOp.init, ManagerOp.loadResourceAsync "a" ResourceType.TEXTURE 1,
          ManagerOp.workerTurn] loadedManager.cleanup).loadResource "a"
            ResourceType.TEXTURE).1 = none := by
  have hops : ∀ op ∈ [ManagerOp.init, ManagerOp.loadResourceAsync "a" ResourceType.TEXTURE 1,
      ManagerOp.workerTurn], isSetLoader op = false := by
    intro op hop
    simp only [List.mem_cons, List.mem_singleton, List.not_mem_nil, or_false] at hop
    rcases hop with h | h | h <;> rw [h] <;> rfl
  have h := cleanup_spec loadedManager
  refine ⟨hops, ?_, h.2.2.2.2.2.2 _ hops "a" ResourceType.TEXTURE⟩
  have hmem : (("a",
      { id := 0, m_name := "a", m_path := "a", m_type := ResourceType.TEXTURE,
        m_status := ResourceStatus.LOADED, size := 100, loadResult := true,
        loadStatus := ResourceStatus.LOADED }) : String × Resource)
      ∈ loadedManager.m_resources := by decide
  exact h.2.1 _ hmem

end ResourceManager

/-! ## Changing the cache limit -/

namespace ResourceCache

theorem evictResources_lru (c : ResourceCache) (hn : (mapKeys c.m_cache).Nodup) :
    ∀ r ∈ (evictResources c).2, ∀ e ∈ (evictResources c).1.m_cache,
      r.item.lastAccessed ≤ e.2.lastAccessed := by
  apply evictLoop_lru _ c (List.sorted_insertionSort olderFirst (evictItems c)) _ hn
  · intro e he
    apply (List.perm_insertionSort olderFirst (evictItems c)).mem_iff.mpr
    exact List.mem_map_of_mem (fun p : String × CacheItem => (p.1, p.2.lastAccessed)) he
  · exact (sorted_items_keys_perm c).nodup_iff.mpr hn

end ResourceCache

/-! ## Admission, refusal and limit changes of the cache -/

namespace ResourceCache

theorem cacheResource_of_none (c : ResourceCache) (key : String) (r : Resource) (now : Nat)
    (hk : mapFind c.m_cache key = none) (post : ResourceCache)
    (hpost : post = (if wrapAdd c.m_currentCacheSize r.getSize > c.m_cacheSizeLimit
      then (evictResources c).1 else c)) :
    c.cacheResource key r now =
      if wrapAdd post.m_currentCacheSize r.getSize ≤ post.m_cacheSizeLimit then
        { post with
          m_cache := mapAssign post.m_cache key
            { key := key, resource := r, size := r.getSize, lastAccessed := now }
          m_currentCacheSize := wrapAdd post.m_currentCacheSize r.getSize }
      else post := by
  subst hpost
  simp only [cacheResource, hk]

theorem wrapAdd_le (a b : Nat) : wrapAdd a b ≤ a + b := Nat.mod_le _ _

/-- C28, as stated, fails: in the cache reached by `nearlyFullOps` (a: 300,
b: 600, limit 1000) caching a new 500-byte resource under "c" is refused, yet
entry "a" is gone and the current size dropped from 900 to 600. -/
theorem refused_insert_counterexample :
    mapFind (run nearlyFullOps ResourceCache.new).m_cache "c" = none
      ∧ mapFind ((run nearlyFullOps ResourceCache.new).cacheResource "c"
          (sampleResource 3 500) 3).m_cache "c" = none
      ∧ ¬ (((run nearlyFullOps ResourceCache.new).cacheResource "c"
              (sampleResource 3 500) 3).m_cache
            = (run nearlyFullOps ResourceCache.new).m_cache
          ∧ ((run nearlyFullOps ResourceCache.new).cacheResource "c"
              (sampleResource 3 500) 3).getCacheSize
            = (run nearlyFullOps ResourceCache.new).getCacheSize) := by
  decide

/-- C28, amended: when `cacheResource` does not cache a new key, the call is an
eviction pass and nothing else: the limit was exceeded, the cache afterwards is
the result of `evictResources`, so every entry either remains as it was or is
among the removals of that pass, nothing is added, and the cache is unchanged
when the current size was already at or below 80% of the limit (size and limit
below `2 ^ 50`, where the double comparison of the code is exact). -/
theorem refused_insert_is_eviction (c : ResourceCache) (key : String) (r : Resource)
    (now : Nat) (hk : mapFind c.m_cache key = none)
    (href : mapFind (c.cacheResource key r now).m_cache key = none) :
    c.m_currentCacheSize + r.getSize > c.m_cacheSizeLimit
      ∧ c.cacheResource key r now = (evictResources c).1
      ∧ (∀ e ∈ (c.cacheResource key r now).m_cache, e ∈ c.m_cache)
      ∧ (∀ e ∈ c.m_cache, e ∈ (c.cacheResource key r now).m_cache
          ∨ ∃ rm ∈ (evictResources c).2, rm.item = e.2)
      ∧ (c.m_currentCacheSize < 2 ^ 50 → c.m_cacheSizeLimit < 2 ^ 50 →
          5 * c.m_currentCacheSize ≤ 4 * c.m_cacheSizeLimit → c.cacheResource key r now = c) := by
  have hcall := cacheResource_of_none c key r now hk _ rfl
  have hres : wrapAdd c.m_currentCacheSize r.getSize > c.m_cacheSizeLimit
      ∧ c.cacheResource key r now = (evictResources c).1 := by
    by_cases hov : wrapAdd c.m_currentCacheSize r.getSize > c.m_cacheSizeLimit
    · refine ⟨hov, ?_⟩
      simp only [hov, if_true] at hcall
      by_cases hfit : wrapAdd (evictResources c).1.m_currentCacheSize r.getSize
          ≤ (evictResources c).1.m_cacheSizeLimit
      · rw [hcall, if_pos hfit] at href
        simp [mapFind_mapAssign_self] at href
      · rw [hcall, if_neg hfit]
    · exfalso
      simp only [hov, if_false] at hcall
      have hfit : wrapAdd c.m_currentCacheSize r.getSize ≤ c.m_cacheSizeLimit := by omega
      rw [hcall, if_pos hfit] at href
      simp [mapFind_mapAssign_self] at href
  have hle := wrapAdd_le c.m_currentCacheSize r.getSize
  refine ⟨by omega, hres.2, ?_, ?_, ?_⟩
  · intro e he
    rw [hres.2] at he
    exact evictLoop_subset _ c e he
  · intro e he
    rw [hres.2]
    exact evictLoop_complete _ c e he
  · intro hc hl hat
    rw [hres.2, evictResources_of_atTarget c ((atTarget_iff_exact _ _ hc hl).mpr hat)]

theorem refused_insert_is_eviction_witness :
    mapFind (run nearlyFullOps ResourceCache.new).m_cache "c" = none
      ∧ mapFind ((run nearlyFullOps ResourceCache.new).cacheResource "c"
          (sampleResource 3 500) 3).m_cache "c" = none
      ∧ (run nearlyFullOps ResourceCache.new).cacheResource "c" (sampleResource 3 500) 3
          = (evictResources (run nearlyFullOps ResourceCache.new)).1 :=
  ⟨by decide, by decide,
    (refused_insert_is_eviction (run nearlyFullOps ResourceCache.new) "c"
      (sampleResource 3 500) 3 (by decide) (by decide)).2.1⟩

/-- C30, as stated, fails: in the cache reached by `threeEntryOps` (three entries
of 300 bytes, limit 1000, size 900) the value 1100 is at least the limit and at
least the size, yet `setCacheSizeLimit(1100)` removes entry "a" and leaves the
size at 600. -/
theorem raising_limit_counterexample :
    (run threeEntryOps ResourceCache.new).getCacheLimit ≤ 1100
      ∧ (run threeEntryOps ResourceCache.new).getCacheSize ≤ 1100
      ∧ (run threeEntryOps ResourceCache.new).getCacheSize = 900
      ∧ (mapFind (run threeEntryOps ResourceCache.new).m_cache "a").isSome = true
      ∧ mapFind ((run threeEntryOps ResourceCache.new).setCacheSizeLimit 1100).m_cache "a"
          = none
      ∧ ((run threeEntryOps ResourceCache.new).setCacheSizeLimit 1100).getCacheSize = 600 := by
  decide

/-- C30, amended: for every cache state and every value b, both the current size
and b below `2 ^ 50` (where the double comparison of the code is exact), with
the current size at or below 80% of b, `setCacheSizeLimit(b)` only changes the
limit: no entry is removed and the current size is unchanged. -/
theorem raising_limit_keeps_entries (c : ResourceCache) (b : Nat)
    (hc : c.getCacheSize < 2 ^ 50) (hb : b < 2 ^ 50) (h : 5 * c.getCacheSize ≤ 4 * b) :
    c.setCacheSizeLimit b = { c with m_cacheSizeLimit := b }
      ∧ (c.setCacheSizeLimit b).m_cache = c.m_cache
      ∧ (c.setCacheSizeLimit b).getCacheSize = c.getCacheSize
      ∧ (evictResources { c with m_cacheSizeLimit := b }).2 = [] := by
  have he := evictResources_of_atTarget { c with m_cacheSizeLimit := b }
    ((atTarget_iff_exact c.getCacheSize b hc hb).mpr h)
  have hs : c.setCacheSizeLimit b = { c with m_cacheSizeLimit := b } := by
    simp only [setCacheSizeLimit, he]
  refine ⟨hs, ?_, ?_, ?_⟩
  · rw [hs]
  · rw [hs]; rfl
  · rw [he]

theorem raising_limit_keeps_entries_witness :
    (run threeEntryOps ResourceCache.new).getCacheSize < 2 ^ 50
      ∧ 5 * (run threeEntryOps ResourceCache.new).getCacheSize ≤ 4 * 1200
      ∧ ((run threeEntryOps ResourceCache.new).setCacheSizeLimit 1200).getCacheSize = 900
      ∧ ((run threeEntryOps ResourceCache.new).setCacheSizeLimit 1200).m_cache
          = (run threeEntryOps ResourceCache.new).m_cache := by
  have h := raising_limit_keeps_entries (run threeEntryOps ResourceCache.new) 1200
    (by decide) (by decide) (by decide)
  refine ⟨by decide, by decide, ?_, h.2.1⟩
  rw [h.2.2.1]; decide

end ResourceCache

/-! ## The cache at the edge of the `size_t` and `double` ranges -/

namespace ResourceCache

/-- C3, evaluated: in a cache of limit `5 * 2 ^ 60` holding one entry of
`2 ^ 62 + 1` bytes the eviction pass removes nothing, because both sides of the
`double` comparison round to `2 ^ 62`; the pass ends with the cache not empty and
the current size above 80% of the limit (which is exactly `2 ^ 62`). -/
theorem eviction_pass_stops_above_target :
    (run hugeLimitOps ResourceCache.new).getCacheLimit = 5 * 2 ^ 60
      ∧ (run hugeLimitOps ResourceCache.new).getCacheSize = 2 ^ 62 + 1
      ∧ (evictResources (run hugeLimitOps ResourceCache.new)).2 = []
      ∧ (mapFind (evictResources (run hugeLimitOps ResourceCache.new)).1.m_cache "a").isSome
          = true
      ∧ ¬ 5 * (evictResources (run hugeLimitOps ResourceCache.new)).1.getCacheSize
            ≤ 4 * (evictResources (run hugeLimitOps ResourceCache.new)).1.getCacheLimit := by
  decide

/-- C7, evaluated: in a cache of limit 1000 holding 400 bytes, `cacheResource` with
a new key and a resource of `2 ^ 64 - 100` bytes forms the `size_t` sum 300, so
the resource, far larger than the limit, is cached and `getCacheSize()` becomes
300. -/
theorem oversized_resource_cached :
    (run smallCacheOps ResourceCache.new).getCacheLimit = 1000
      ∧ (run smallCacheOps ResourceCache.new).getCacheSize = 400
      ∧ mapFind (run smallCacheOps ResourceCache.new).m_cache "b" = none
      ∧ (sampleResource 2 (2 ^ 64 - 100)).getSize > 1000
      ∧ (mapFind ((run smallCacheOps ResourceCache.new).cacheResource "b"
          (sampleResource 2 (2 ^ 64 - 100)) 2).m_cache "b").isSome = true
      ∧ ((run smallCacheOps ResourceCache.new).cacheResource "b"
          (sampleResource 2 (2 ^ 64 - 100)) 2).getCacheSize = 300 := by
  decide

/-- C20, evaluated: on a cache holding one entry of `2 ^ 62 + 1` bytes,
`setCacheSizeLimit(5 * 2 ^ 60)` sets the limit and evicts nothing: afterwards the
cache is not empty and the current size is above 80% of the new limit. -/
theorem setCacheSizeLimit_stops_above_target :
    ((run hugeEntryOps ResourceCache.new).setCacheSizeLimit (5 * 2 ^ 60)).getCacheLimit
        = 5 * 2 ^ 60
      ∧ ((run hugeEntryOps ResourceCache.new).setCacheSizeLimit (5 * 2 ^ 60)).getCacheSize
        = 2 ^ 62 + 1
      ∧ (mapFind ((run hugeEntryOps ResourceCache.new).setCacheSizeLimit
          (5 * 2 ^ 60)).m_cache "a").isSome = true
      ∧ ¬ 5 * ((run hugeEntryOps ResourceCache.new).setCacheSizeLimit (5 * 2 ^ 60)).getCacheSize
            ≤ 4 * (5 * 2 ^ 60) := by
  decide

/-- C21, evaluated: a resource of 900 bytes is admitted under "k" into an empty
cache of limit 1000; a later `cacheResource` with a resource of `2 ^ 64 - 500`
bytes forms the `size_t` sum 400 and is admitted without eviction, after which
"k" is still cached and `getCacheSize()` is 400, below 80% of the limit. -/
theorem big_entry_falls_below_target :
    4 * 1000 < 5 * (sampleResource 1 900).getSize
      ∧ (sampleResource 1 900).getSize ≤ 1000
      ∧ (mapFind ((emptyWithLimit 1000).cacheResource "k" (sampleResource 1 900) 1).m_cache
          "k").isSome = true
      ∧ (mapFind (((emptyWithLimit 1000).cacheResource "k" (sampleResource 1 900) 1).cacheResource
          "x" (sampleResource 2 (2 ^ 64 - 500)) 2).m_cache "k").isSome = true
      ∧ (((emptyWithLimit 1000).cacheResource "k" (sampleResource 1 900) 1).cacheResource
          "x" (sampleResource 2 (2 ^ 64 - 500)) 2).getCacheLimit = 1000
      ∧ (((emptyWithLimit 1000).cacheResource "k" (sampleResource 1 900) 1).cacheResource
          "x" (sampleResource 2 (2 ^ 64 - 500)) 2).getCacheSize = 400 := by
  decide

/-- C29, evaluated: in a cache of limit `5 * 2 ^ 60` holding one entry of
`2 ^ 62 + 1` bytes, a resource of `2 ^ 60` bytes (a fifth of the limit) under a
new key overflows the limit by one byte, the eviction pass removes nothing (both
sides of its `double` comparison round to `2 ^ 62`), and the resource is
refused. -/
theorem small_resource_refused :
    mapFind (run hugeLimitOps ResourceCache.new).m_cache "b" = none
      ∧ 5 * (sampleResource 2 (2 ^ 60)).getSize
          ≤ (run hugeLimitOps ResourceCache.new).getCacheLimit
      ∧ mapFind ((run hugeLimitOps ResourceCache.new).cacheResource "b"
          (sampleResource 2 (2 ^ 60)) 2).m_cache "b" = none
      ∧ (run hugeLimitOps ResourceCache.new).cacheResource "b" (sampleResource 2 (2 ^ 60)) 2
          = run hugeLimitOps ResourceCache.new := by
  decide

end ResourceCache

/-! ## The asynchronous pipeline against the synchronous load -/

namespace ResourceManager

/-- C27, evaluated: for the texture loader of `inconsistentManager` (its
resources return false from `load()` but end with status `LOADED`) the
synchronous `loadResource("a", TEXTURE)` returns nothing and leaves the map
empty, while the worker handling a request for ("a", TEXTURE) from the same state
maps "a", raises the memory total to 100 and hands the resource to the callback. -/
theorem async_differs_from_sync_counterexample :
    mapFind inconsistentManager.m_resources "a" = none
      ∧ (inconsistentManager.loadResource "a" ResourceType.TEXTURE).1 = none
      ∧ (inconsistentManager.loadResource "a" ResourceType.TEXTURE).2.m_resources = []
      ∧ (inconsistentManager.loadResource "a" ResourceType.TEXTURE).2.getTotalMemoryUsage = 0
      ∧ ¬ ((inconsistentManager.processRequest
              { path := "a", type := ResourceType.TEXTURE, callback := 7 }).m_resources
            = (inconsistentManager.loadResource "a" ResourceType.TEXTURE).2.m_resources
          ∧ (inconsistentManager.processRequest
              { path := "a", type := ResourceType.TEXTURE, callback := 7 }).getTotalMemoryUsage
            = (inconsistentManager.loadResource "a" ResourceType.TEXTURE).2.getTotalMemoryUsage
          ∧ (inconsistentManager.processRequest
              { path := "a", type := ResourceType.TEXTURE, callback := 7 }).trace.getLast?
            = some (Event.callback 7
                (inconsistentManager.loadResource "a" ResourceType.TEXTURE).1)) := by
  decide

end ResourceManager

/-! ## UIManager: setting the screen size -/

namespace UIManager

theorem screenCall_none (fuel : Nat) :
    ∀ (viaSet : Bool) (s : UIManager) (width height : Int),
      screenCall fuel viaSet s width height = none := by
  induction fuel with
  | zero => intro viaSet s width height; rfl
  | succ n ih =>
    intro viaSet s width height
    cases viaSet with
    | true => simp only [screenCall]; exact ih false _ width height
    | false => simp only [screenCall, ih true s width height]

/-- C23, evaluated: `setScreenSize` calls `resize` and `resize` calls
`setScreenSize` first, so whatever depth of nested calls is allowed, neither call
returns, for any manager state and any width and height; in particular no
`getScreenSize` follows. -/
theorem setScreenSize_never_returns (fuel : Nat) (s : UIManager) (width height : Int) :
    setScreenSize fuel s width height = none ∧ resize fuel s width height = none :=
  ⟨screenCall_none fuel true s width height, screenCall_none fuel false s width height⟩

end UIManager

/-! ## FishingSystem: casting -/

namespace FishingSystem

/-- C24, evaluated: on an initialised system in state IDLE, `castRod` with power
100 and angle 0 (the arguments of the tests) returns false and leaves the system
as it was, in state IDLE. -/
theorem castRod_power_counterexample :
    (FishingSystem.new.init true true).1 = true
      ∧ (FishingSystem.new.init true true).2.getFishingState = FishingState.IDLE
      ∧ (FishingSystem.new.init true true).2.castRod (F32.ofNat 100) F32.zero
          = (false, (FishingSystem.new.init true true).2)
      ∧ ¬ (((FishingSystem.new.init true true).2.castRod (F32.ofNat 100) F32.zero).1 = true
          ∧ (((FishingSystem.new.init true true).2.castRod (F32.ofNat 100)
                  F32.zero).2.getFishingState = FishingState.CASTING
              ∨ ((FishingSystem.new.init true true).2.castRod (F32.ofNat 100)
                  F32.zero).2.getFishingState = FishingState.WAITING)) := by
  decide

/-! ## FishingSystem: progress and tension -/

/-- C25, evaluated: `reelIn` accepts a NaN power (both comparisons of its range
check are false), and the next `update` in state REELING leaves
`getReelingProgress()` and `getLineTension()` NaN, which no clamp catches; with
power 0, strength 0 and an infinite time step the progress is NaN as well.  In
both runs the value is not in [0, 1]. -/
theorem progress_not_in_range :
    ((run (hookOps (F32.fin 1 (-1))) FishingSystem.new).reelIn F32.nan).1 = true
      ∧ (run nanReelOps FishingSystem.new).getFishingState = FishingState.REELING
      ∧ (run nanReelOps FishingSystem.new).getReelingProgress = F32.nan
      ∧ (run nanReelOps FishingSystem.new).getLineTension = F32.nan
      ∧ (run nanReelOps FishingSystem.new).getReelingProgress.inUnitInterval = false
      ∧ (run nanReelOps FishingSystem.new).getLineTension.inUnitInterval = false
      ∧ (run infiniteStepOps FishingSystem.new).getFishingState = FishingState.REELING
      ∧ (run infiniteStepOps FishingSystem.new).getReelingProgress = F32.nan
      ∧ (run infiniteStepOps FishingSystem.new).getReelingProgress.inUnitInterval = false := by
  decide

end FishingSystem

/-! ## Config: set and get -/

namespace Config

/-- C26: after `set(key, v)` the key is present and, for v an int, a bool or a
string, the getter of that type returns v whatever the key held before; the value
found under every other key, and so the result of every getter and of `hasKey`
for it, is unchanged. -/
theorem set_then_get (c : Config) (key : String) :
    (∀ v, (c.set key v).hasKey key = true)
      ∧ (∀ n d, (c.set key (.int n)).getInt key d = n)
      ∧ (∀ b d, (c.set key (.bool b)).getBool key d = b)
      ∧ (∀ str d, (c.set key (.string str)).getString key d = str)
      ∧ ∀ v q, q ≠ key →
          mapFind (c.set key v).m_values q = mapFind c.m_values q
            ∧ (c.set key v).hasKey q = c.hasKey q
            ∧ (∀ d, (c.set key v).getInt q d = c.getInt q d)
            ∧ (∀ d, (c.set key v).getBool q d = c.getBool q d)
            ∧ (∀ d, (c.set key v).getString q d = c.getString q d) := by
  refine ⟨?_, ?_, ?_, ?_, ?_⟩
  · intro v; simp [hasKey, set, mapFind_mapAssign_self]
  · intro n d; simp [getInt, set, mapFind_mapAssign_self]
  · intro b d; simp [getBool, set, mapFind_mapAssign_self]
  · intro str d; simp [getString, set, mapFind_mapAssign_self]
  · intro v q hq
    have h : mapFind (c.set key v).m_values q = mapFind c.m_values q :=
      mapFind_mapAssign_ne c.m_values key q v hq
    refine ⟨h, ?_, ?_, ?_, ?_⟩
    · simp only [hasKey, h]
    · intro d; simp only [getInt, h]
    · intro d; simp only [getBool, h]
    · intro d; simp only [getString, h]

theorem set_then_get_witness :
    "string_key" ≠ "int_key"
      ∧ (testConfig.set "int_key" (.string "x")).hasKey "int_key" = true
      ∧ (testConfig.set "int_key" (.string "x")).getString "int_key" "" = "x"
      ∧ (testConfig.set "int_key" (.string "x")).getString "string_key" ""
          = testConfig.getString "string_key" ""
      ∧ testConfig.getString "string_key" "" = "test_string" :=
  ⟨by decide, (set_then_get testConfig "int_key").1 (.string "x"),
    (set_then_get testConfig "int_key").2.2.2.1 "x" "",
    ((set_then_get testConfig "int_key").2.2.2.2 (.string "x") "string_key"
      (by decide)).2.2.2.2 "",
    by decide⟩

end Config

/-! ## Config: decimal text of integers -/

theorem digitChar_spec : ∀ d, d < 10 →
    (Nat.digitChar d).isDigit = true ∧ (Nat.digitChar d).toNat - 48 = d := by
  decide

theorem toDigitsCore_isDigit (fuel : Nat) : ∀ (n : Nat) (ds : List Char),
    (∀ c ∈ ds, c.isDigit = true) →
    ∀ c ∈ Nat.toDigitsCore 10 fuel n ds, c.isDigit = true := by
  induction fuel with
  | zero => intro n ds h; simpa [Nat.toDigitsCore] using h
  | succ k ih =>
    intro n ds h
    have hd : ∀ c ∈ Nat.digitChar (n % 10) :: ds, c.isDigit = true := by
      intro c hc
      rcases List.mem_cons.mp hc with hc | hc
      · rw [hc]; exact (digitChar_spec (n % 10) (Nat.mod_lt n (by decide))).1
      · exact h c hc
    simp only [Nat.toDigitsCore]
    split
    · exact hd
    · exact ih (n / 10) _ hd

theorem toDigitsCore_ne_nil (fuel : Nat) : ∀ (n : Nat) (ds : List Char),
    ds ≠ [] ∨ 0 < fuel → Nat.toDigitsCore 10 fuel n ds ≠ [] := by
  induction fuel with
  | zero =>
    intro n ds h
    rcases h with h | h
    · simpa [Nat.toDigitsCore] using h
    · exact absurd h (Nat.lt_irrefl 0)
  | succ k ih =>
    intro n ds _
    simp only [Nat.toDigitsCore]
    split
    · simp
    · exact ih (n / 10) _ (Or.inl (by simp))

theorem toDigitsCore_value (fuel : Nat) : ∀ (n : Nat) (ds : List Char), n < fuel →
    (Nat.toDigitsCore 10 fuel n ds).foldl (fun acc c => 10 * acc + (c.toNat - 48)) 0
      = ds.foldl (fun acc c => 10 * acc + (c.toNat - 48)) n := by
  induction fuel with
  | zero => intro n ds h; exact absurd h (Nat.not_lt_zero n)
  | succ k ih =>
    intro n ds h
    have hval := (digitChar_spec (n % 10) (Nat.mod_lt n (by decide))).2
    simp only [Nat.toDigitsCore]
    split
    · rename_i hz
      have hn : n % 10 = n := by omega
      simp only [List.foldl_cons, Nat.mul_zero, Nat.zero_add]
      rw [hval, hn]
    · rename_i hz
      have hlt : n / 10 < k := by omega
      rw [ih (n / 10) _ hlt]
      simp only [List.foldl_cons, hval]
      have hn : 10 * (n / 10) + n % 10 = n := Nat.div_add_mod n 10
      rw [hn]

theorem toDigits_facts (n : Nat) :
    (∀ c ∈ Nat.toDigits 10 n, c.isDigit = true)
      ∧ Nat.toDigits 10 n ≠ []
      ∧ digitsValue (Nat.toDigits 10 n) = n := by
  refine ⟨?_, ?_, ?_⟩
  · exact toDigitsCore_isDigit (n + 1) n [] (by simp)
  · exact toDigitsCore_ne_nil (n + 1) n [] (Or.inr (Nat.succ_pos n))
  · have h := toDigitsCore_value (n + 1) n [] (Nat.lt_succ_self n)
    simpa [digitsValue, Nat.toDigits] using h

theorem isDigit_not_special (c : Char) (h : c.isDigit = true) :
    isSpaceChar c = false ∧ isBlank c = false ∧ c ≠ '-' ∧ c ≠ '+' ∧ c ≠ '\n' ∧ c ≠ 't'
      ∧ c ≠ 'f' := by
  have key : ∀ d : Char, d.isDigit = false → c ≠ d := by
    intro d hd hcd
    rw [hcd, hd] at h
    cases h
  refine ⟨?_, ?_, key _ (by decide), key _ (by decide), key _ (by decide),
    key _ (by decide), key _ (by decide)⟩
  · simp only [isSpaceChar, Bool.or_eq_false_iff, decide_eq_false_iff_not]
    exact ⟨⟨⟨⟨⟨key _ (by decide), key _ (by decide)⟩, key _ (by decide)⟩,
      key _ (by decide)⟩, key _ (by decide)⟩, key _ (by decide)⟩
  · simp only [isBlank, Bool.or_eq_false_iff, decide_eq_false_iff_not]
    exact ⟨key _ (by decide), key _ (by decide)⟩

theorem dropWhile_of_all_false {p : Char → Bool} (l : List Char)
    (h : ∀ c ∈ l, p c = false) : l.dropWhile p = l := by
  cases l with
  | nil => rfl
  | cons c t => simp [List.dropWhile, h c (by simp)]

theorem takeWhile_of_all_true {p : Char → Bool} (l : List Char)
    (h : ∀ c ∈ l, p c = true) : l.takeWhile p = l := by
  induction l with
  | nil => rfl
  | cons c t ih =>
    simp only [List.takeWhile, h c (by simp)]
    rw [ih (fun d hd => h d (List.mem_cons_of_mem _ hd))]

theorem trimBlanks_of_no_blank (l : List Char) (h : ∀ c ∈ l, isBlank c = false) :
    trimBlanks l = l := by
  unfold trimBlanks
  rw [dropWhile_of_all_false l h,
    dropWhile_of_all_false l.reverse (fun c hc => h c (List.mem_reverse.mp hc)),
    List.reverse_reverse]

theorem trimBlanks_space_cons (l : List Char) : trimBlanks (' ' :: l) = trimBlanks l := by
  simp [trimBlanks, List.dropWhile, isBlank]

theorem trimBlanks_append_space (k : List Char) (h : ∀ c ∈ k, isBlank c = false) :
    trimBlanks (k ++ [' ']) = k := by
  cases k with
  | nil => decide
  | cons c t =>
    have hc : isBlank c = false := h c (by simp)
    have h1 : (c :: t ++ [' ']).dropWhile isBlank = c :: t ++ [' '] := by
      simp [List.dropWhile, hc]
    have h2 : (c :: t ++ [' ']).reverse = ' ' :: (c :: t).reverse := by simp
    have h3 : (' ' :: (c :: t).reverse).dropWhile isBlank = (c :: t).reverse := by
      have : isBlank ' ' = true := by decide
      simp only [List.dropWhile, this]
      exact dropWhile_of_all_false _ (fun d hd => h d (List.mem_reverse.mp hd))
    unfold trimBlanks
    rw [h1, h2, h3, List.reverse_reverse]

theorem stoi_digits (ds : List Char) (hd : ∀ c ∈ ds, c.isDigit = true) (hne : ds ≠ [])
    (hr : digitsValue ds ≤ 2147483647) :
    stoi ds = some ((digitsValue ds : Int), ds.length) := by
  cases ds with
  | nil => exact absurd rfl hne
  | cons c t =>
    obtain ⟨hsp, -, hminus, hplus, -⟩ := isDigit_not_special c (hd c (by simp))
    have htake : (c :: t).takeWhile Char.isDigit = c :: t := takeWhile_of_all_true _ hd
    have hm : ¬ (some c = some '-') := fun h => hminus (Option.some.inj h)
    have hp : ¬ (some c = some '+') := fun h => hplus (Option.some.inj h)
    have hrange : ¬ ((digitsValue (c :: t) : Int) < -2147483648
        ∨ (digitsValue (c :: t) : Int) > 2147483647) := by omega
    simp only [stoi, List.takeWhile_cons, List.dropWhile_cons, hsp, List.head?_cons, hm, hp,
      or_self, if_false, List.drop_zero, htake, decide_False, Bool.false_eq_true]
    simp
    omega

theorem stoi_minus_digits (ds : List Char) (hd : ∀ c ∈ ds, c.isDigit = true) (hne : ds ≠ [])
    (hr : digitsValue ds ≤ 2147483648) :
    stoi ('-' :: ds) = some (-(digitsValue ds : Int), ds.length + 1) := by
  have htake : ds.takeWhile Char.isDigit = ds := takeWhile_of_all_true _ hd
  have hsp : isSpaceChar '-' = false := by decide
  have hrange : ¬ (-(digitsValue ds : Int) < -2147483648
      ∨ -(digitsValue ds : Int) > 2147483647) := by omega
  have hdrop : (List.dropWhile isSpaceChar ('-' :: ds)) = '-' :: ds := by
    simp [List.dropWhile, hsp]
  have htk : (List.takeWhile isSpaceChar ('-' :: ds)) = [] := by
    simp [List.takeWhile, hsp]
  unfold stoi
  simp only [hdrop, htk, List.head?_cons, true_or, if_true, List.drop_succ_cons,
    List.drop_zero, htake, decide_True, List.length_nil, Nat.zero_add]
  rw [if_neg hne, if_neg hrange]
  simp [Nat.add_comm]

theorem intToString_data (n : Int) :
    (0 ≤ n → (intToString n).data = Nat.toDigits 10 n.toNat)
      ∧ (n < 0 → (intToString n).data = '-' :: Nat.toDigits 10 (-n).toNat) := by
  refine ⟨?_, ?_⟩
  · intro h
    have h2 : ¬ n < 0 := not_lt.mpr h
    simp [intToString, h2, Nat.repr, List.asString]
  · intro h
    simp [intToString, h, Nat.repr, List.asString]

theorem stoi_intToString (n : Int) (h1 : -2147483648 ≤ n) (h2 : n ≤ 2147483647) :
    stoi (intToString n).data = some (n, (intToString n).data.length) := by
  by_cases hn : 0 ≤ n
  · obtain ⟨hd, hne, hv⟩ := toDigits_facts n.toNat
    rw [(intToString_data n).1 hn, stoi_digits _ hd hne (by rw [hv]; omega), hv]
    have : ((n.toNat : Nat) : Int) = n := Int.toNat_of_nonneg hn
    rw [this]
  · have hneg : n < 0 := not_le.mp hn
    obtain ⟨hd, hne, hv⟩ := toDigits_facts (-n).toNat
    rw [(intToString_data n).2 hneg, stoi_minus_digits _ hd hne (by rw [hv]; omega), hv]
    have : (((-n).toNat : Nat) : Int) = -n := Int.toNat_of_nonneg (by omega)
    rw [this]
    simp

theorem intToString_chars (n : Int) :
    (intToString n).data ≠ []
      ∧ ∀ c ∈ (intToString n).data, c.isDigit = true ∨ c = '-' := by
  by_cases hn : 0 ≤ n
  · obtain ⟨hd, hne, -⟩ := toDigits_facts n.toNat
    rw [(intToString_data n).1 hn]
    exact ⟨hne, fun c hc => Or.inl (hd c hc)⟩
  · have hneg : n < 0 := not_le.mp hn
    obtain ⟨hd, -, -⟩ := toDigits_facts (-n).toNat
    rw [(intToString_data n).2 hneg]
    refine ⟨by simp, ?_⟩
    intro c hc
    rcases List.mem_cons.mp hc with h | h
    · exact Or.inr h
    · exact Or.inl (hd c h)

/-! ## Config: lines of a saved file -/

theorem getlines_line (l : List Char) (hl : '\n' ∉ l) :
    ∀ (rest acc : List Char), getlines (l ++ '\n' :: rest) acc = (acc ++ l) :: getlines rest [] := by
  induction l with
  | nil => intro rest acc; simp [getlines]
  | cons c t ih =>
    intro rest acc
    have hc : c ≠ '\n' := fun h => hl (by simp [h])
    have ht : '\n' ∉ t := fun h => hl (List.mem_cons_of_mem _ h)
    simp only [List.cons_append, getlines, hc, if_false, List.append_eq]
    rw [ih ht rest (acc ++ [c])]
    simp

theorem getlines_lines (ls : List (List Char)) (h : ∀ l ∈ ls, '\n' ∉ l) :
    getlines (ls.map fun l => l ++ ['\n']).flatten [] = ls := by
  induction ls with
  | nil => simp [getlines]
  | cons l rest ih =>
    have h1 : '\n' ∉ l := h l (by simp)
    simp only [List.map_cons, List.flatten_cons, List.append_assoc, List.singleton_append]
    rw [getlines_line l h1, ih (fun x hx => h x (List.mem_cons_of_mem _ hx))]
    simp

theorem takeWhile_append_stop {p : Char → Bool} (a r : List Char) (x : Char)
    (ha : ∀ c ∈ a, p c = true) (hx : p x = false) : (a ++ x :: r).takeWhile p = a := by
  induction a with
  | nil => simp [List.takeWhile, hx]
  | cons c t ih =>
    simp only [List.cons_append, List.takeWhile, ha c (by simp), List.append_eq]
    rw [ih (fun d hd => ha d (List.mem_cons_of_mem _ hd))]

theorem dropWhile_append_stop {p : Char → Bool} (a r : List Char) (x : Char)
    (ha : ∀ c ∈ a, p c = true) (hx : p x = false) : (a ++ x :: r).dropWhile p = x :: r := by
  induction a with
  | nil => simp [List.dropWhile, hx]
  | cons c t ih =>
    simp only [List.cons_append, List.dropWhile, ha c (by simp), List.append_eq]
    exact ih (fun d hd => ha d (List.mem_cons_of_mem _ hd))

namespace Config

theorem plain_char (ch : Char) (h : ch.isAlphanum = true ∨ ch = '_') :
    ch ≠ '=' ∧ ch ≠ '\n' ∧ ch ≠ '#' ∧ isBlank ch = false := by
  have key : ∀ d : Char, d.isAlphanum = false → d ≠ '_' → ch ≠ d := by
    intro d hd hu hcd
    rw [hcd] at h
    rcases h with h | h
    · rw [hd] at h; cases h
    · exact hu h
  refine ⟨key _ (by decide) (by decide), key _ (by decide) (by decide),
    key _ (by decide) (by decide), ?_⟩
  simp only [isBlank, Bool.or_eq_false_iff, decide_eq_false_iff_not]
  exact ⟨key _ (by decide) (by decide), key _ (by decide) (by decide)⟩

theorem set_foldl_find (m : List (String × ConfigValue)) :
    ∀ (c0 : Config), (mapKeys m).Nodup → ∀ q,
      mapFind (m.foldl (fun acc e => acc.set e.1 e.2) c0).m_values q
        = (mapFind m q).orElse (fun _ => mapFind c0.m_values q) := by
  induction m with
  | nil => intro c0 _ q; simp [mapFind]
  | cons e rest ih =>
    intro c0 hn q
    obtain ⟨k, v⟩ := e
    have hn2 : k ∉ mapKeys rest ∧ (mapKeys rest).Nodup := by
      simpa [mapKeys] using hn
    simp only [List.foldl_cons]
    rw [ih (c0.set k v) hn2.2 q]
    by_cases hq : k = q
    · subst hq
      have hnone : mapFind rest k = none := by
        cases hf : mapFind rest k with
        | none => rfl
        | some w =>
          exact absurd (List.mem_map_of_mem Prod.fst (mapFind_some_mem rest k w hf)) hn2.1
      simp [mapFind, hnone, set, mapFind_mapAssign_self]
    · have hq2 : q ≠ k := fun h => hq h.symm
      simp only [mapFind, hq, if_false, set, mapFind_mapAssign_ne c0.m_values k q v hq2]

end Config

namespace Config

theorem entryLine_shape (lib : FloatText) (k : String) (v : ConfigValue) :
    entryLine lib (k, v) = (k.data ++ [' ']) ++ '=' :: (' ' :: (v.toString lib).data) := by
  simp [entryLine]

theorem parseLine_split (lib : FloatText) (c : Config) (k : String) (v : ConfigValue)
    (hk : plainKey k) (hvs : trimBlanks (v.toString lib).data = (v.toString lib).data) :
    parseLine lib c (entryLine lib (k, v))
      = (if (v.toString lib).data = "true".data ∨ (v.toString lib).data = "false".data then
          c.set k (.bool (decide ((v.toString lib).data = "true".data)))
        else
          match stoi (v.toString lib).data with
          | some (intValue, pos) =>
            if pos = (v.toString lib).data.length then c.set k (.int intValue)
            else
              match lib.stof (v.toString lib).data with
              | some (floatValue, fpos) =>
                if fpos = (v.toString lib).data.length then c.set k (.float floatValue)
                else c.set k (.string (String.mk (v.toString lib).data))
              | none => c.set k (.string (String.mk (v.toString lib).data))
          | none =>
            match lib.stof (v.toString lib).data with
            | some (floatValue, fpos) =>
              if fpos = (v.toString lib).data.length then c.set k (.float floatValue)
              else c.set k (.string (String.mk (v.toString lib).data))
            | none => c.set k (.string (String.mk (v.toString lib).data))) := by
  have hp : ∀ ch ∈ k.data ++ [' '], (decide (ch ≠ '=')) = true := by
    intro ch hch
    rcases List.mem_append.mp hch with h | h
    · simpa using (plain_char ch (hk.2 ch h)).1
    · have : ch = ' ' := by simpa using h
      rw [this]; decide
  have hx : (decide ('=' ≠ '=')) = false := by decide
  have hmem : '=' ∈ entryLine lib (k, v) := by rw [entryLine_shape]; simp
  have htake : (entryLine lib (k, v)).takeWhile (fun ch => decide (ch ≠ '='))
      = k.data ++ [' '] := by
    rw [entryLine_shape]
    exact takeWhile_append_stop _ _ _ hp hx
  have hdrop : (entryLine lib (k, v)).dropWhile (fun ch => decide (ch ≠ '='))
      = '=' :: (' ' :: (v.toString lib).data) := by
    rw [entryLine_shape]
    exact dropWhile_append_stop _ _ _ hp hx
  have hkey : String.mk (trimBlanks (k.data ++ [' '])) = k := by
    rw [trimBlanks_append_space k.data (fun ch hch => (plain_char ch (hk.2 ch hch)).2.2.2)]
  have hval : trimBlanks (' ' :: (v.toString lib).data) = (v.toString lib).data := by
    rw [trimBlanks_space_cons, hvs]
  unfold parseLine
  rw [if_neg (not_not.mpr hmem)]
  simp only [htake, hdrop, List.drop_succ_cons, List.drop_zero, hkey, hval]

theorem storable_text (lib : FloatText) (v : ConfigValue) (hv : storable lib v) :
    '\n' ∉ (v.toString lib).data
      ∧ trimBlanks (v.toString lib).data = (v.toString lib).data := by
  cases v with
  | int n =>
    obtain ⟨-, hch⟩ := intToString_chars n
    have hno : ∀ c ∈ (intToString n).data, c ≠ '\n' ∧ isBlank c = false := by
      intro c hc
      rcases hch c hc with h | h
      · exact ⟨(isDigit_not_special c h).2.2.2.2.1, (isDigit_not_special c h).2.1⟩
      · rw [h]; decide
    refine ⟨?_, ?_⟩
    · intro hmem
      exact (hno _ hmem).1 rfl
    · exact trimBlanks_of_no_blank _ (fun c hc => (hno c hc).2)
  | bool b =>
    cases b
    · simp only [ConfigValue.toString]
      decide
    · simp only [ConfigValue.toString]
      decide
  | string str => exact ⟨hv.1, hv.2.1⟩
  | float f => exact absurd hv (by simp [storable])
  | vector w => exact absurd hv (by simp [storable])

theorem parseLine_entry (lib : FloatText) (c : Config) (k : String) (v : ConfigValue)
    (hk : plainKey k) (hv : storable lib v) :
    parseLine lib c (entryLine lib (k, v)) = c.set k v := by
  rw [parseLine_split lib c k v hk (storable_text lib v hv).2]
  cases v with
  | int n =>
    obtain ⟨hne, hch⟩ := intToString_chars n
    have hnot : ∀ w : List Char, (∃ x, x ∈ w ∧ x.isDigit = false ∧ x ≠ '-') →
        (intToString n).data ≠ w := by
      rintro w ⟨x, hx, hxd, hxm⟩ heq
      rw [← heq] at hx
      rcases hch x hx with h | h
      · rw [hxd] at h; cases h
      · exact hxm h
    have h1 : ¬ ((intToString n).data = "true".data ∨ (intToString n).data = "false".data) := by
      rintro (h | h)
      · exact hnot _ ⟨'t', by decide, by decide, by decide⟩ h
      · exact hnot _ ⟨'f', by decide, by decide, by decide⟩ h
    have hstoi := stoi_intToString n hv.1 hv.2
    simp only [ConfigValue.toString, h1, if_false, hstoi, if_true]
  | bool b =>
    cases b
    · simp [ConfigValue.toString]
    · simp [ConfigValue.toString]
  | string str =>
    obtain ⟨-, -, ht, hf, hi, hfl⟩ := hv
    have h1 : ¬ (str.data = "true".data ∨ str.data = "false".data) := by
      rintro (h | h)
      · exact ht h
      · exact hf h
    simp only [ConfigValue.toString, h1, if_false]
    cases hs : stoi str.data with
    | none =>
      cases hsf : lib.stof str.data with
      | none => rfl
      | some fp =>
        obtain ⟨f, pos⟩ := fp
        simp only [if_neg (hfl f pos hsf)]
    | some ip =>
      obtain ⟨i, pos⟩ := ip
      simp only [if_neg (hi i pos hs)]
      cases hsf : lib.stof str.data with
      | none => rfl
      | some fp =>
        obtain ⟨f, fpos⟩ := fp
        simp only [if_neg (hfl f fpos hsf)]
  | float f => exact absurd hv (by simp [storable])
  | vector w => exact absurd hv (by simp [storable])

end Config

namespace Config

theorem save_lines (lib : FloatText) (date time : String) (c : Config) :
    save lib date time c
      = (("# Fishing Game Configuration".data
            :: ("# Last modified: " ++ date ++ " " ++ time).data
            :: [] :: c.m_values.map (entryLine lib)).map fun l => l ++ ['\n']).flatten := by
  have hmap : (c.m_values.map fun pair =>
        (pair.1 ++ " = " ++ pair.2.toString lib ++ "\n").data)
      = (c.m_values.map (entryLine lib)).map fun l => l ++ ['\n'] := by
    rw [List.map_map]
    apply List.map_congr_left
    intro pair _
    simp [entryLine, String.data_append]
  unfold save
  rw [hmap]
  simp [String.data_append]

theorem entryLine_facts (lib : FloatText) (k : String) (v : ConfigValue)
    (hk : plainKey k) (hv : storable lib v) :
    '\n' ∉ entryLine lib (k, v) ∧ entryLine lib (k, v) ≠ []
      ∧ (entryLine lib (k, v)).head? ≠ some '#' := by
  obtain ⟨hne, hch⟩ := hk
  refine ⟨?_, ?_, ?_⟩
  · intro hmem
    simp only [entryLine, List.mem_append] at hmem
    rcases hmem with (h | h) | h
    · exact (plain_char _ (hch _ h)).2.1 rfl
    · revert h; decide
    · exact (storable_text lib v hv).1 h
  · cases hd : k.data with
    | nil => exact absurd hd hne
    | cons a t => simp [entryLine, hd]
  · cases hd : k.data with
    | nil => exact absurd hd hne
    | cons a t =>
      have ha : a ≠ '#' := (plain_char a (hch a (by simp [hd]))).2.2.1
      simp [entryLine, hd, ha]

theorem loadLines_entries (lib : FloatText) (m : List (String × ConfigValue))
    (h : ∀ e ∈ m, plainKey e.1 ∧ storable lib e.2) :
    ∀ c0 : Config, loadLines lib c0 (m.map (entryLine lib))
      = m.foldl (fun acc e => acc.set e.1 e.2) c0 := by
  induction m with
  | nil => intro c0; rfl
  | cons e rest ih =>
    intro c0
    obtain ⟨k, v⟩ := e
    obtain ⟨hk, hv⟩ := h (k, v) (by simp)
    obtain ⟨-, hne, hhead⟩ := entryLine_facts lib k v hk hv
    have hstep : loadLines lib c0 (entryLine lib (k, v) :: rest.map (entryLine lib))
        = loadLines lib (parseLine lib c0 (entryLine lib (k, v))) (rest.map (entryLine lib)) := by
      simp only [loadLines, List.foldl_cons]
      rw [if_neg (by
        rintro (h1 | h1)
        · exact hne h1
        · exact hhead h1)]
    rw [List.map_cons, hstep, parseLine_entry lib c0 k v hk hv,
      ih (fun e he => h e (by simp [he]))]
    rfl

theorem load_saved (lib : FloatText) (date time : String) (c : Config)
    (hstamp : '\n' ∉ date.data ∧ '\n' ∉ time.data)
    (hs : ∀ e ∈ c.m_values, plainKey e.1 ∧ storable lib e.2) :
    load lib (some (save lib date time c)) Config.new
      = (true, c.m_values.foldl (fun acc e => acc.set e.1 e.2) Config.new) := by
  have hlines : ∀ l ∈ "# Fishing Game Configuration".data
      :: ("# Last modified: " ++ date ++ " " ++ time).data
      :: [] :: c.m_values.map (entryLine lib), '\n' ∉ l := by
    intro l hl
    simp only [List.mem_cons, List.mem_map] at hl
    rcases hl with h | h | h | ⟨e, he, h⟩
    · rw [h]; decide
    · rw [h]
      simp only [String.data_append, List.mem_append]
      rintro (((h1 | h1) | h1) | h1)
      · revert h1; decide
      · exact hstamp.1 h1
      · revert h1; decide
      · exact hstamp.2 h1
    · rw [h]; simp
    · rw [← h]
      exact (entryLine_facts lib e.1 e.2 (hs e he).1 (hs e he).2).1
  have hhead : ("# Last modified: " ++ date ++ " " ++ time).data.head? = some '#' := by
    simp only [String.data_append, List.append_assoc]
    simp [show "# Last modified: ".data = '#' :: " Last modified: ".data from rfl]
  unfold load
  simp only []
  rw [save_lines, getlines_lines _ hlines]
  have hskip : ∀ c0 : Config, loadLines lib c0 ("# Fishing Game Configuration".data
      :: ("# Last modified: " ++ date ++ " " ++ time).data
      :: [] :: c.m_values.map (entryLine lib))
      = loadLines lib c0 (c.m_values.map (entryLine lib)) := by
    intro c0
    have hstep : ∀ (l : List Char) (rest : List (List Char)),
        l = [] ∨ l.head? = some '#' →
        loadLines lib c0 (l :: rest) = loadLines lib c0 rest := by
      intro l rest hl
      simp only [loadLines, List.foldl_cons]
      rw [if_pos hl]
    rw [hstep _ _ (Or.inr (by decide)), hstep _ _ (Or.inr hhead),
      hstep _ _ (Or.inl rfl)]
  rw [hskip, loadLines_entries lib c.m_values hs]

end Config

/-! ## Config: saving and loading -/

namespace Config

/-- C22, as stated, fails: the key "flag" is a plain identifier and holds the
string "true"; after `save` and `load` into an empty Config the key holds the
bool `true`, and `getString` returns its default instead of "true". -/
theorem save_load_string_counterexample :
    (∀ ch ∈ "flag".data, ch.isAlphanum = true ∨ ch = '_')
      ∧ trueStringConfig.getString "flag" "" = "true"
      ∧ (load plainFloatText
            (some (save plainFloatText "Oct 30 2026" "12:00:00" trueStringConfig))
            Config.new).1 = true
      ∧ mapFind (load plainFloatText
            (some (save plainFloatText "Oct 30 2026" "12:00:00" trueStringConfig))
            Config.new).2.m_values "flag" = some (ConfigValue.bool true)
      ∧ (load plainFloatText
            (some (save plainFloatText "Oct 30 2026" "12:00:00" trueStringConfig))
            Config.new).2.getString "flag" "" = "" := by
  decide

/-- C22, amended: for a Config whose keys are distinct plain identifiers and whose
values are ints, bools, or strings that are `stableText` (one line, no blank at
either end, not "true" or "false", not read in full as a number), `load` of the
text written by `save` into an empty Config returns true and yields a Config in
which every key maps to the value it had, so `hasKey`, `getString`, `getInt` and
`getBool` answer as before. -/
theorem save_load_roundtrip (lib : FloatText) (date time : String) (c : Config)
    (hn : (mapKeys c.m_values).Nodup)
    (hstamp : '\n' ∉ date.data ∧ '\n' ∉ time.data)
    (hs : ∀ e ∈ c.m_values, plainKey e.1 ∧ storable lib e.2) :
    (load lib (some (save lib date time c)) Config.new).1 = true
      ∧ ∀ key : String,
          mapFind (load lib (some (save lib date time c)) Config.new).2.m_values key
              = mapFind c.m_values key
            ∧ (load lib (some (save lib date time c)) Config.new).2.hasKey key = c.hasKey key
            ∧ (∀ d, (load lib (some (save lib date time c)) Config.new).2.getString key d
                = c.getString key d)
            ∧ (∀ d, (load lib (some (save lib date time c)) Config.new).2.getInt key d
                = c.getInt key d)
            ∧ (∀ d, (load lib (some (save lib date time c)) Config.new).2.getBool key d
                = c.getBool key d) := by
  rw [load_saved lib date time c hstamp hs]
  refine ⟨rfl, fun key => ?_⟩
  have hfind : mapFind (c.m_values.foldl (fun acc e => acc.set e.1 e.2) Config.new).m_values key
      = mapFind c.m_values key := by
    rw [set_foldl_find c.m_values Config.new hn key]
    cases mapFind c.m_values key with
    | none => rfl
    | some v => rfl
  refine ⟨hfind, ?_, ?_, ?_, ?_⟩
  · simp only [hasKey, hfind]
  · intro d; simp only [getString, hfind]
  · intro d; simp only [getInt, hfind]
  · intro d; simp only [getBool, hfind]

theorem save_load_roundtrip_witness :
    (mapKeys testConfig.m_values).Nodup
      ∧ (load plainFloatText (some (save plainFloatText "Oct 30 2026" "12:00:00" testConfig))
          Config.new).1 = true
      ∧ (load plainFloatText (some (save plainFloatText "Oct 30 2026" "12:00:00" testConfig))
          Config.new).2.getString "string_key" "" = testConfig.getString "string_key" ""
      ∧ (load plainFloatText (some (save plainFloatText "Oct 30 2026" "12:00:00" testConfig))
          Config.new).2.getInt "int_key" 0 = testConfig.getInt "int_key" 0
      ∧ (load plainFloatText (some (save plainFloatText "Oct 30 2026" "12:00:00" testConfig))
          Config.new).2.getBool "bool_key" false = testConfig.getBool "bool_key" false
      ∧ testConfig.getString "string_key" "" = "test_string"
      ∧ testConfig.getInt "int_key" 0 = 123
      ∧ testConfig.getBool "bool_key" false = true := by
  have hs : ∀ e ∈ testConfig.m_values, plainKey e.1 ∧ storable plainFloatText e.2 := by
    intro e he
    have he2 : e = ("string_key", ConfigValue.string "test_string")
        ∨ e = ("int_key", ConfigValue.int 123) ∨ e = ("bool_key", ConfigValue.bool true) := by
      simpa [testConfig, Config.new, set, mapAssign] using he
    rcases he2 with h | h | h
    · rw [h]
      refine ⟨⟨by decide, by decide⟩, by decide, by decide, by decide, by decide, ?_, ?_⟩
      · intro n pos hst
        have hnone : stoi "test_string".data = none := by decide
        rw [hnone] at hst
        cases hst
      · intro f pos hst
        cases hst
    · rw [h]
      exact ⟨⟨by decide, by decide⟩, by decide, by decide⟩
    · rw [h]
      exact ⟨⟨by decide, by decide⟩, trivial⟩
  have h := save_load_roundtrip plainFloatText "Oct 30 2026" "12:00:00" testConfig
    (by decide) ⟨by decide, by decide⟩ hs
  exact ⟨by decide, h.1, (h.2 "string_key").2.2.1 "", (h.2 "int_key").2.2.2.1 0,
    (h.2 "bool_key").2.2.2.2 false, by decide, by decide, by decide⟩

end Config

end Appgame
